import Mathlib

/-!
Verification of the `gwosc-catalog` community-catalog validator.

The development shallowly embeds the two source modules:

* `ccverify/schema.py` — the value formatter `_condition_value_and_error`
  together with `_first_decimal_place`, and the strict dataclass layer
  (`ParameterValue`, `Link`, `SearchResult`, `ParameterSet`, `Event`,
  `Catalog`) with its `__post_init__` validation, `from_json` constructors
  and `to_json` serialisation.
* `ccverify/core.py` — the lenient walker `verify_upload_schema`.

Numbers are modelled as exact rationals: the Python code manipulates IEEE
doubles, and every claim under study is a statement about the decimal
arithmetic the code performs, so the embedding idealises each float as the
rational it denotes and models `round`, `%g`/`%e` formatting and
`np.log10`-based exponent extraction exactly over `ℚ`.
-/

namespace GwoscCatalog

/-- Round half to even of a rational to an integer, the tie-breaking rule of
Python's built-in `round`. -/
def rhe (x : ℚ) : ℤ :=
  let f := ⌊x⌋
  let r := x - (f : ℚ)
  if r < 1/2 then f
  else if 1/2 < r then f + 1
  else if f % 2 = 0 then f else f + 1

/-- Python `round(x, dp)`: round to `dp` decimal places (ties to even).
`dp` may be negative, in which case the result is a multiple of `10 ^ (-dp)`. -/
def roundTo (dp : ℤ) (x : ℚ) : ℚ := (rhe (x * 10 ^ dp) : ℚ) / 10 ^ dp

/-- Python `int(x)`: truncation toward zero. -/
def pyTrunc (x : ℚ) : ℤ := if 0 ≤ x then ⌊x⌋ else -⌊-x⌋

/-- Fuel-driven base-10 logarithm on naturals; the fuel makes the recursion
structural so that the kernel can evaluate it on literals. -/
def natLogAux : ℕ → ℕ → ℕ
  | 0, _ => 0
  | fuel + 1, n => if n < 10 then 0 else natLogAux fuel (n / 10) + 1

/-- Floor of `log10 n` for a positive natural (and `0` at `0`). -/
def natLog10 (n : ℕ) : ℕ := natLogAux n n

/-- The decimal exponent of a positive rational: the unique `e` with
`10 ^ e ≤ x < 10 ^ (e + 1)`, i.e. the floor of `log10 x`; `0` on
nonpositive input. -/
def decExp (x : ℚ) : ℤ :=
  if x ≤ 0 then 0
  else if (10 : ℚ) ^ ((natLog10 x.num.natAbs : ℤ) - (natLog10 x.den : ℤ)) ≤ x
  then (natLog10 x.num.natAbs : ℤ) - (natLog10 x.den : ℤ)
  else (natLog10 x.num.natAbs : ℤ) - (natLog10 x.den : ℤ) - 1

/-- `_first_decimal_place(value) = int(np.ceil(-np.log10(np.abs(value))))`
from `schema.py`.  Over exact arithmetic the ceiling of `-log10 |x|` equals
the negated floor of `log10 |x|`, which is `decExp |x|`. -/
def firstDecimalPlace (x : ℚ) : ℤ := -(decExp |x|)

/-- Rounding to `sig` significant figures with ties to even: the value of
`float(f"{x:.{sig}g}")` idealised over exact rationals. -/
def sigRound (sig : ℕ) (x : ℚ) : ℚ :=
  if x = 0 then 0
  else
    let e := decExp |x|
    let m := |x| / 10 ^ e
    (if x < 0 then -1 else 1) * roundTo ((sig : ℤ) - 1) m * 10 ^ e

/-- Whether `f"{x:e}".startswith("1")` holds for `x > 0`: the scientific
notation mantissa printed with six decimal places begins with the digit `1`,
which happens exactly when the rounded mantissa lies below `2` or rolls over
to `10` (e.g. `0.99999999` prints as `1.000000e+00`). -/
def eFmtLeadingOne (x : ℚ) : Bool :=
  let m := x / 10 ^ (decExp |x|)
  let r := roundTo 6 m
  decide (r < 2 ∨ r = 10)

/-- Result dictionary of `_condition_value_and_error`.  The degenerate branch
stores the central value under the dict key `"median"`, the general branch
under `"best"`; both are kept as options so that the key difference stays
observable. -/
structure CondResult where
  best : Option ℚ
  median : Option ℚ
  lower_error : ℚ
  upper_error : ℚ
  decimal_places : ℤ
deriving DecidableEq

/-- The `truncate` closure of `_condition_value_and_error`: round to
`decimal_places` and cast to `int` unless `decimal_places > 0`. -/
def condTruncate (dp : ℤ) (v : ℚ) : ℚ :=
  let rounded := roundTo dp v
  if 0 < dp then rounded else (pyTrunc rounded : ℚ)

/-- Shallow embedding of `_condition_value_and_error` from `schema.py`.
`none` models the `OverflowError` raised by `int(np.ceil(-np.log10(0.0)))`
when `value == 0` in the `min_error == 0` branch; every other input yields a
result dictionary. -/
def conditionValueAndError (value : ℚ) (error : ℚ × ℚ) : Option CondResult :=
  let e0 := |error.1|
  let e1 := |error.2|
  let minError := min e0 e1
  if minError = 0 then
    if value = 0 then none
    else some
      { best := none
        median := some (sigRound 2 value)
        lower_error := sigRound 2 (-e0)
        upper_error := sigRound 2 e1
        decimal_places := max 0 (firstDecimalPlace value + 1) }
  else
    let dp := firstDecimalPlace minError + (if eFmtLeadingOne minError then 1 else 0)
    let truncatedValue := condTruncate dp value
    some
      { best := some truncatedValue
        median := none
        lower_error := condTruncate dp (value - e0 - truncatedValue)
        upper_error := condTruncate dp (value + e1 - truncatedValue)
        decimal_places := max 0 dp }

/-- Restatement of the spec's step 4 and 5 wording for the general branch:
round to `decimal_places` and, when `decimal_places <= 0`, cast to an
integer.  Used to compare the source's `truncate` closure against the
specification text. -/
def specRoundCast (dp : ℤ) (x : ℚ) : ℚ :=
  if dp ≤ 0 then (pyTrunc (roundTo dp x) : ℚ) else roundTo dp x

/-! ### JSON documents and the strict dataclass layer of `schema.py`

JSON values are modelled by `JValue`; the dataclasses become structures with
typed fields.  Python dataclasses do not enforce field types at runtime, but
every document the claims below quantify over is either serialised from a
typed record by `asdict` or a concrete literal, and on those documents the
typed parser agrees with the Python code, including which exception class is
raised. -/

/-- JSON values as produced by `json.load`. -/
inductive JValue where
  | null
  | bool (b : Bool)
  | num (q : ℚ)
  | str (s : String)
  | arr (xs : List JValue)
  | obj (fields : List (String × JValue))

/-- Python exception classes raised by the two validators. -/
inductive PyErr where
  | valueError
  | typeError
  | keyError
  | attributeError
deriving DecidableEq

/-- Lookup in a JSON object: Python dict indexing and `in` tests. -/
def jLookup : List (String × JValue) → String → Option JValue
  | [], _ => none
  | (k', v) :: rest, k => if k' = k then some v else jLookup rest k

/-- `ccverify.__version__`.  Modelled from the spec: the package version
string is auto-populated into `schema_version`; the package `__init__` is not
part of `src/`, and no claim depends on the concrete string. -/
def schemaVersion : String := "ccverify-version"

/-- The `ParameterValue` dataclass. -/
structure ParameterValue where
  parameter_name : String
  decimal_places : ℚ
  best : ℚ
  upper_error : Option ℚ := none
  lower_error : Option ℚ := none
  is_upper_bound : Bool := false
  is_lower_bound : Bool := false
  unit : Option String := none
deriving DecidableEq

/-- The `Link` dataclass. -/
structure Link where
  url : String
  content_type : String
  description : String
deriving DecidableEq

/-- The `SearchResult` dataclass. -/
structure SearchResult where
  pipeline_name : String
  parameters : List ParameterValue
deriving DecidableEq

/-- The `ParameterSet` dataclass. -/
structure ParameterSet where
  pe_set_name : String
  waveform_family : String
  parameters : List ParameterValue
  data_url : Option String := none
  is_preferred : Bool := false
  links : Option (List Link) := none
deriving DecidableEq

/-- The `Event` dataclass. -/
structure Event where
  event_name : String
  gps : ℚ
  search : List SearchResult
  gracedb_id : Option String := none
  pe_sets : Option (List ParameterSet) := none
  detectors : Option (List String) := none
  event_description : Option String := none
deriving DecidableEq

/-- The `Catalog` dataclass. -/
structure Catalog where
  catalog_name : String
  release_date : String
  catalog_description : String
  doi : String
  events : List Event
  schema_version : String := schemaVersion
deriving DecidableEq

def massParameterNames : List String :=
  ["chirp_mass_source", "chirp_mass", "mass_1_source", "mass_2_source",
   "total_mass_source", "final_mass_source"]

def massUnits : List String := ["solMass", "M_sun", "Msun"]

def unitIsMass : Option String → Bool
  | some s => massUnits.contains s
  | none => false

/-- `ParameterValue.__post_init__`. -/
def parameterValuePostInit (p : ParameterValue) : Except PyErr Unit :=
  if massParameterNames.contains p.parameter_name ∧ ¬ unitIsMass p.unit then
    .error .valueError
  else if p.parameter_name = "luminosity_distance" ∧ p.unit ≠ some "Mpc" then
    .error .valueError
  else if p.parameter_name = "far" ∧ p.unit ≠ some "1/year" then
    .error .valueError
  else if p.is_upper_bound ∧ p.is_lower_bound then
    .error .valueError
  else .ok ()

/-- Decidable matcher for the strict-mode regular expression
`^GW\d{6}_\d{6}$` of `Event.__post_init__`: six digits, an underscore and
six more digits after the prefix `GW`. -/
def matchesGWFull (s : String) : Bool :=
  match s.data with
  | c1 :: c2 :: rest =>
    c1 == 'G' && c2 == 'W' && rest.length == 13 && (rest.take 6).all Char.isDigit &&
    (match rest.drop 6 with
     | u :: tail => u == '_' && tail.all Char.isDigit
     | [] => false)
  | _ => false

/-- The specification's pattern `GW\d{6}(_\d{6})?`, transcribed from the
spec's words for comparison with the code's pattern: the underscore suffix
is optional. -/
def matchesGWSpec (s : String) : Bool :=
  match s.data with
  | c1 :: c2 :: rest =>
    c1 == 'G' && c2 == 'W' &&
    ((rest.length == 6 && rest.all Char.isDigit) ||
     (rest.length == 13 && (rest.take 6).all Char.isDigit &&
      (match rest.drop 6 with
       | u :: tail => u == '_' && tail.all Char.isDigit
       | [] => false)))
  | _ => false

def allowedDetectors : List String := ["H1", "L1", "V1", "K1", "G1"]

/-- The detector loop of `Event.__post_init__`: every listed detector must be
in the whitelist; an absent list is not checked. -/
def detectorsOk : Option (List String) → Bool
  | some ds => ds.all (fun d => allowedDetectors.contains d)
  | none => true

/-- `Event.__post_init__`: event-name format, detector whitelist, non-empty
search list, and — only when `pe_sets` is present and non-empty — the
exactly-one-preferred invariant. -/
def eventPostInit (ev : Event) : Except PyErr Unit :=
  if ¬ matchesGWFull ev.event_name then .error .valueError
  else if ¬ detectorsOk ev.detectors then .error .valueError
  else if ev.search.length = 0 then .error .valueError
  else match ev.pe_sets with
    | none => .ok ()
    | some ps =>
      if ps.length = 0 then .ok ()
      else if (ps.filter (fun p => p.is_preferred)).length ≠ 1 then .error .valueError
      else .ok ()

/-- Matcher for `^\d{4}-\d{2}-\d{2}$`. -/
def releaseDateFormatOk (s : String) : Bool :=
  match s.data with
  | [y1, y2, y3, y4, c1, m1, m2, c2, d1, d2] =>
    y1.isDigit && y2.isDigit && y3.isDigit && y4.isDigit && c1 == '-' &&
    m1.isDigit && m2.isDigit && c2 == '-' && d1.isDigit && d2.isDigit
  | _ => false

def digitVal (c : Char) : ℕ := c.toNat - '0'.toNat

/-- The month field of a `YYYY-MM-DD` string (after the format check). -/
def releaseDateMonth (s : String) : ℕ :=
  match s.data with
  | [_, _, _, _, _, m1, m2, _, _, _] => 10 * digitVal m1 + digitVal m2
  | _ => 0

/-- The day field of a `YYYY-MM-DD` string (after the format check). -/
def releaseDateDay (s : String) : ℕ :=
  match s.data with
  | [_, _, _, _, _, _, _, _, d1, d2] => 10 * digitVal d1 + digitVal d2
  | _ => 0

/-- `Catalog.__post_init__`: non-empty events, release-date format and
month/day ranges; a `schema_version` mismatch only warns. -/
def catalogPostInit (c : Catalog) : Except PyErr Unit :=
  if c.events.length = 0 then .error .valueError
  else if ¬ releaseDateFormatOk c.release_date then .error .valueError
  else if ¬ (1 ≤ releaseDateMonth c.release_date ∧ releaseDateMonth c.release_date ≤ 12 ∧
             1 ≤ releaseDateDay c.release_date ∧ releaseDateDay c.release_date ≤ 31) then
    .error .valueError
  else .ok ()

instance {ε α : Type} [DecidableEq ε] [DecidableEq α] : DecidableEq (Except ε α) := fun a b =>
  match a, b with
  | .error e, .error e' => decidable_of_iff (e = e') (by simp)
  | .ok x, .ok y => decidable_of_iff (x = y) (by simp)
  | .error _, .ok _ => isFalse (by simp)
  | .ok _, .error _ => isFalse (by simp)

/-- Keys of a parsed object must all be consumed by the `**kwargs` call:
an unexpected key raises `TypeError`. -/
def keysSubset (fields : List (String × JValue)) (allowed : List String) : Bool :=
  fields.all (fun kv => allowed.contains kv.1)

/-- Required string field (missing or ill-typed: `TypeError`). -/
def getStr (fields : List (String × JValue)) (k : String) : Except PyErr String :=
  match jLookup fields k with
  | some (.str s) => .ok s
  | some _ => .error .typeError
  | none => .error .typeError

/-- Optional string field defaulting to `None`. -/
def getOptStr (fields : List (String × JValue)) (k : String) : Except PyErr (Option String) :=
  match jLookup fields k with
  | some (.str s) => .ok (some s)
  | some .null => .ok none
  | some _ => .error .typeError
  | none => .ok none

/-- Required numeric field. -/
def getNum (fields : List (String × JValue)) (k : String) : Except PyErr ℚ :=
  match jLookup fields k with
  | some (.num q) => .ok q
  | some _ => .error .typeError
  | none => .error .typeError

/-- Optional numeric field defaulting to `None`. -/
def getOptNum (fields : List (String × JValue)) (k : String) : Except PyErr (Option ℚ) :=
  match jLookup fields k with
  | some (.num q) => .ok (some q)
  | some .null => .ok none
  | some _ => .error .typeError
  | none => .ok none

/-- Boolean field defaulting to `False`. -/
def getBoolD (fields : List (String × JValue)) (k : String) : Except PyErr Bool :=
  match jLookup fields k with
  | some (.bool b) => .ok b
  | some _ => .error .typeError
  | none => .ok false

/-- Left-to-right effectful map, as a Python list comprehension: the first
exception aborts. -/
def mapExcept {α β : Type} (f : α → Except PyErr β) : List α → Except PyErr (List β)
  | [] => .ok []
  | x :: xs => do
    let y ← f x
    let ys ← mapExcept f xs
    pure (y :: ys)

/-- `ParameterValue(**p)` on a parsed JSON object, including
`__post_init__`. -/
def ParameterValue.fromJson (j : JValue) : Except PyErr ParameterValue :=
  match j with
  | .obj f =>
    if ¬ keysSubset f ["parameter_name", "decimal_places", "best", "upper_error",
        "lower_error", "is_upper_bound", "is_lower_bound", "unit"] then .error .typeError
    else do
      let parameter_name ← getStr f "parameter_name"
      let decimal_places ← getNum f "decimal_places"
      let best ← getNum f "best"
      let upper_error ← getOptNum f "upper_error"
      let lower_error ← getOptNum f "lower_error"
      let is_upper_bound ← getBoolD f "is_upper_bound"
      let is_lower_bound ← getBoolD f "is_lower_bound"
      let unit ← getOptStr f "unit"
      let pv : ParameterValue := ⟨parameter_name, decimal_places, best, upper_error,
        lower_error, is_upper_bound, is_lower_bound, unit⟩
      let _ ← parameterValuePostInit pv
      pure pv
  | _ => .error .typeError

/-- `Link(**u)` on a parsed JSON object. -/
def Link.fromJson (j : JValue) : Except PyErr Link :=
  match j with
  | .obj f =>
    if ¬ keysSubset f ["url", "content_type", "description"] then .error .typeError
    else do
      let url ← getStr f "url"
      let content_type ← getStr f "content_type"
      let description ← getStr f "description"
      pure ⟨url, content_type, description⟩
  | _ => .error .typeError

/-- `SearchResult.from_json`: copy, pop `parameters` (required), build each
`ParameterValue`, then `SearchResult(**s, parameters=...)`. -/
def SearchResult.fromJson (j : JValue) : Except PyErr SearchResult :=
  match j with
  | .obj f =>
    match jLookup f "parameters" with
    | none => .error .keyError
    | some pj => do
      let params ← (match pj with
        | .arr xs => mapExcept ParameterValue.fromJson xs
        | _ => .error .typeError)
      if ¬ keysSubset f ["pipeline_name", "parameters"] then .error .typeError
      else do
        let pipeline_name ← getStr f "pipeline_name"
        pure ⟨pipeline_name, params⟩
  | _ => .error .attributeError

/-- `ParameterSet.from_json`: copy, pop `parameters` (required) and `links`
(defaulting to `[]`; iterating an explicit `null` raises `TypeError`), then
`ParameterSet(**ps, ...)`.  Note that the parsed record always carries a
list in `links`, never `None`. -/
def ParameterSet.fromJson (j : JValue) : Except PyErr ParameterSet :=
  match j with
  | .obj f =>
    match jLookup f "parameters" with
    | none => .error .keyError
    | some pj => do
      let params ← (match pj with
        | .arr xs => mapExcept ParameterValue.fromJson xs
        | _ => .error .typeError)
      let links ← (match jLookup f "links" with
        | none => .ok []
        | some (.arr xs) => mapExcept Link.fromJson xs
        | some _ => .error .typeError)
      if ¬ keysSubset f ["pe_set_name", "waveform_family", "parameters", "data_url",
          "is_preferred", "links"] then .error .typeError
      else do
        let pe_set_name ← getStr f "pe_set_name"
        let waveform_family ← getStr f "waveform_family"
        let data_url ← getOptStr f "data_url"
        let is_preferred ← getBoolD f "is_preferred"
        pure ⟨pe_set_name, waveform_family, params, data_url, is_preferred, some links⟩
  | _ => .error .attributeError

/-- `Event.from_json`: copy, pop `search` (required) and `pe_sets`
(defaulting to `[]`; iterating an explicit `null` raises `TypeError`), build
the children, then `Event(**e, search=..., pe_sets=[...] or None)` with
`__post_init__`. -/
def Event.fromJson (j : JValue) : Except PyErr Event :=
  match j with
  | .obj f =>
    match jLookup f "search" with
    | none => .error .keyError
    | some sj => do
      let searches ← (match sj with
        | .arr xs => mapExcept SearchResult.fromJson xs
        | _ => .error .typeError)
      let peList ← (match jLookup f "pe_sets" with
        | none => .ok []
        | some (.arr xs) => mapExcept ParameterSet.fromJson xs
        | some _ => .error .typeError)
      if ¬ keysSubset f ["event_name", "gps", "search", "gracedb_id", "pe_sets",
          "detectors", "event_description"] then .error .typeError
      else do
        let event_name ← getStr f "event_name"
        let gps ← getNum f "gps"
        let gracedb_id ← getOptStr f "gracedb_id"
        let detectors ← (match jLookup f "detectors" with
          | none => .ok none
          | some .null => .ok none
          | some (.arr xs) => do
              let ds ← mapExcept (fun x => match x with
                | JValue.str s => Except.ok s
                | _ => Except.error PyErr.typeError) xs
              pure (some ds)
          | some _ => .error .typeError)
        let event_description ← getOptStr f "event_description"
        let ev : Event := ⟨event_name, gps, searches, gracedb_id,
          if peList.isEmpty then none else some peList,
          detectors, event_description⟩
        let _ ← eventPostInit ev
        pure ev
  | _ => .error .attributeError

/-- `Catalog.from_json`: copy, pop `events` (required), build the events,
then `Catalog(**c, events=...)` with `__post_init__`. -/
def Catalog.fromJson (j : JValue) : Except PyErr Catalog :=
  match j with
  | .obj f =>
    match jLookup f "events" with
    | none => .error .keyError
    | some ej => do
      let events ← (match ej with
        | .arr xs => mapExcept Event.fromJson xs
        | _ => .error .typeError)
      if ¬ keysSubset f ["catalog_name", "release_date", "catalog_description", "doi",
          "events", "schema_version"] then .error .typeError
      else do
        let catalog_name ← getStr f "catalog_name"
        let release_date ← getStr f "release_date"
        let catalog_description ← getStr f "catalog_description"
        let doi ← getStr f "doi"
        let schema_version ← (match jLookup f "schema_version" with
          | none => .ok schemaVersion
          | some (.str s) => .ok s
          | some _ => .error .typeError)
        let c : Catalog := ⟨catalog_name, release_date, catalog_description, doi,
          events, schema_version⟩
        let _ ← catalogPostInit c
        pure c
  | _ => .error .attributeError

/-- `validate_schema` from `schema.py` (strict mode). -/
def validateSchema (j : JValue) : Except PyErr Bool := do
  let _ ← Catalog.fromJson j
  pure true

def optStrJ : Option String → JValue
  | none => .null
  | some s => .str s

def optNumJ : Option ℚ → JValue
  | none => .null
  | some q => .num q

/-- `dataclasses.asdict` on a `ParameterValue` (field declaration order). -/
def ParameterValue.toJson (p : ParameterValue) : JValue :=
  .obj [("parameter_name", .str p.parameter_name), ("decimal_places", .num p.decimal_places),
        ("best", .num p.best), ("upper_error", optNumJ p.upper_error),
        ("lower_error", optNumJ p.lower_error), ("is_upper_bound", .bool p.is_upper_bound),
        ("is_lower_bound", .bool p.is_lower_bound), ("unit", optStrJ p.unit)]

/-- `dataclasses.asdict` on a `Link`. -/
def Link.toJson (l : Link) : JValue :=
  .obj [("url", .str l.url), ("content_type", .str l.content_type),
        ("description", .str l.description)]

/-- `dataclasses.asdict` on a `SearchResult`. -/
def SearchResult.toJson (s : SearchResult) : JValue :=
  .obj [("pipeline_name", .str s.pipeline_name),
        ("parameters", .arr (s.parameters.map ParameterValue.toJson))]

/-- `dataclasses.asdict` on a `ParameterSet`. -/
def ParameterSet.toJson (ps : ParameterSet) : JValue :=
  .obj [("pe_set_name", .str ps.pe_set_name), ("waveform_family", .str ps.waveform_family),
        ("parameters", .arr (ps.parameters.map ParameterValue.toJson)),
        ("data_url", optStrJ ps.data_url), ("is_preferred", .bool ps.is_preferred),
        ("links", match ps.links with
          | none => .null
          | some ls => .arr (ls.map Link.toJson))]

/-- `dataclasses.asdict` on an `Event`. -/
def Event.toJson (ev : Event) : JValue :=
  .obj [("event_name", .str ev.event_name), ("gps", .num ev.gps),
        ("search", .arr (ev.search.map SearchResult.toJson)),
        ("gracedb_id", optStrJ ev.gracedb_id),
        ("pe_sets", match ev.pe_sets with
          | none => .null
          | some ps => .arr (ps.map ParameterSet.toJson)),
        ("detectors", match ev.detectors with
          | none => .null
          | some ds => .arr (ds.map JValue.str)),
        ("event_description", optStrJ ev.event_description)]

/-- `Catalog.to_json` writes `dataclasses.asdict(self)`; this is the
document that lands in the file. -/
def Catalog.toJson (c : Catalog) : JValue :=
  .obj [("catalog_name", .str c.catalog_name), ("release_date", .str c.release_date),
        ("catalog_description", .str c.catalog_description), ("doi", .str c.doi),
        ("events", .arr (c.events.map Event.toJson)),
        ("schema_version", .str c.schema_version)]

/-! ### The lenient walker `verify_upload_schema` of `core.py` -/

/-- Python `len()`: sized values only; numbers, booleans and `null` raise
`TypeError`. -/
def pyLen : JValue → Except PyErr ℕ
  | .arr xs => .ok xs.length
  | .str s => .ok s.length
  | .obj f => .ok f.length
  | _ => .error .typeError

/-- Python iteration: lists yield elements, strings yield one-character
strings, dicts yield their keys. -/
def pyIter : JValue → Except PyErr (List JValue)
  | .arr xs => .ok xs
  | .str s => .ok (s.data.map (fun c => .str (String.mk [c])))
  | .obj f => .ok (f.map (fun kv => .str kv.1))
  | _ => .error .typeError

/-- Run an effectful check over each element, aborting at the first
exception. -/
def forEachE (f : JValue → Except PyErr Unit) : List JValue → Except PyErr Unit
  | [] => .ok ()
  | x :: xs => do
    f x
    forEachE f xs

/-- The innermost loop of `verify_upload_schema`: each parameter entry is
only inspected through `pe.keys()` (raising `AttributeError` on non-dicts)
and warnings. -/
def checkPe (pe : JValue) : Except PyErr Unit :=
  match pe with
  | .obj _ => .ok ()
  | _ => .error .attributeError

/-- The PE-set loop body of `verify_upload_schema`: warnings plus a walk of
`parameters` when present and non-empty. -/
def checkPeset (peset : JValue) : Except PyErr Unit :=
  match peset with
  | .obj pf =>
    match jLookup pf "parameters" with
    | none => .ok ()
    | some params => do
      let n ← pyLen params
      if n = 0 then .ok ()
      else do
        let items ← pyIter params
        forEachE checkPe items
  | _ => .error .attributeError

/-- The event loop body of `verify_upload_schema`: `re.match` on a present
`name` (raising `TypeError` on non-strings), `len`/iteration of a present
`detectors`, and a walk of `pe_sets` when present and non-empty; everything
else only logs warnings. -/
def checkEvent (event : JValue) : Except PyErr Unit :=
  match event with
  | .obj ef => do
    (match jLookup ef "name" with
     | some (.str _) => .ok ()
     | some _ => .error .typeError
     | none => .ok ())
    (match jLookup ef "detectors" with
     | some ds => do
        let _ ← pyLen ds
        let _ ← pyIter ds
        pure ()
     | none => .ok ())
    match jLookup ef "pe_sets" with
    | none => .ok ()
    | some ps => do
      let n ← pyLen ps
      if n = 0 then .ok ()
      else do
        let items ← pyIter ps
        forEachE checkPeset items
  | _ => .error .attributeError

/-- `verify_upload_schema` from `core.py`: returns `False` when `events` is
absent or empty, walks the tree logging warnings otherwise, and returns
`True` at the end; ill-shaped nodes raise (`AttributeError` from `.keys()`,
`TypeError` from `len()`/`re.match`). -/
def verifyUploadSchema (newcat : JValue) : Except PyErr Bool :=
  match newcat with
  | .obj catFields =>
    match jLookup catFields "events" with
    | none => .ok false
    | some events => do
      let n ← pyLen events
      if n = 0 then .ok false
      else do
        let items ← pyIter events
        forEachE checkEvent items
        pure true
  | _ => .error .attributeError

/-- Well-shaped parameter entry: a dict. -/
def wsPe (j : JValue) : Bool :=
  match j with
  | .obj _ => true
  | _ => false

/-- Well-shaped PE set: a dict whose `parameters`, when present, is a list
of dicts. -/
def wsPeset (j : JValue) : Bool :=
  match j with
  | .obj pf =>
    match jLookup pf "parameters" with
    | none => true
    | some (.arr xs) => xs.all wsPe
    | some _ => false
  | _ => false

/-- Well-shaped event: a dict whose `name` (when present) is a string,
whose `detectors` (when present) is a list, and whose `pe_sets` (when
present) is a list of well-shaped PE sets. -/
def wsEvent (j : JValue) : Bool :=
  match j with
  | .obj ef =>
    (match jLookup ef "name" with
     | none => true
     | some (.str _) => true
     | some _ => false) &&
    (match jLookup ef "detectors" with
     | none => true
     | some (.arr _) => true
     | some _ => false) &&
    (match jLookup ef "pe_sets" with
     | none => true
     | some (.arr xs) => xs.all wsPeset
     | some _ => false)
  | _ => false

/-- Well-shaped document body: `events`, when present, is a list of
well-shaped events. -/
def wsDoc (fields : List (String × JValue)) : Bool :=
  match jLookup fields "events" with
  | none => true
  | some (.arr xs) => xs.all wsEvent
  | some _ => false

/-! ### Concrete fixture records used by counterexamples and witnesses -/

/-- A minimal search result. -/
def srFixture : SearchResult := ⟨"pycbc", []⟩

/-- A preferred PE set with empty links. -/
def psPreferred : ParameterSet := ⟨"pipeline-1", "IMRPhenom", [], none, true, some []⟩

/-- A non-preferred PE set with empty links. -/
def psOther : ParameterSet := ⟨"pipeline-2", "IMRPhenom", [], none, false, some []⟩

/-- An event whose name uses the short `GW\d{6}` form without the
underscore suffix. -/
def evShortName : Event := ⟨"GW150914", 0, [srFixture], none, none, none, none⟩

/-- A validated event with `pe_sets = None` (as produced by `from_json` when
the key is absent). -/
def evNoPeSets : Event := ⟨"GW241230_010000", 1, [srFixture], none, none, none, none⟩

/-- A validated catalog containing `evNoPeSets`. -/
def catNoPeSets : Catalog :=
  ⟨"catalog", "2024-02-04", "description", "https://doi.org/x", [evNoPeSets], schemaVersion⟩

/-- A catalog with an empty events list. -/
def catEmptyEvents : Catalog :=
  ⟨"catalog", "2024-02-04", "description", "https://doi.org/x", [], schemaVersion⟩

/-- A validated event with one preferred PE set, suitable for a round trip. -/
def evGood : Event :=
  ⟨"GW241231_010000", 1, [srFixture], none, some [psPreferred], none, none⟩

/-- A validated catalog containing `evGood`, suitable for a round trip. -/
def catGood : Catalog :=
  ⟨"catalog", "2024-02-04", "description", "https://doi.org/x", [evGood], schemaVersion⟩

/-! ### Heap model of the `from_json` constructors

The frame claim — strict parsing never mutates its input — is about Python's
aliasing, so it is settled against an operational model with an explicit
heap: dicts and lists are heap objects addressed by `ℕ`, `copy` allocates,
`pop` writes.  The heap functions below carry out exactly the dict/list
traffic of the `from_json` constructors (`.copy()`, `.pop(...)`, `**kwargs`
reads, comprehension iteration); the field validation performed on values
already read is pure, touches no container, and is modelled by the `JValue`
embedding above, so it is not repeated here.  A non-dict receiver raises
before any write (for a list, `.copy()` succeeds but the keyed `.pop` raises
`TypeError` without mutating anything), so it is modelled as an immediate
exception. -/

/-- Scalar or reference values held inside Python containers. -/
inductive HVal where
  | null
  | bool (b : Bool)
  | num (q : ℚ)
  | str (s : String)
  | ref (a : ℕ)
deriving DecidableEq

/-- Heap objects: the dicts and lists allocated by `json.load`. -/
inductive HObj where
  | dict (fields : List (String × HVal))
  | list (items : List HVal)
deriving DecidableEq

/-- Address lookup in the heap. -/
def hLookup : List (ℕ × HObj) → ℕ → Option HObj
  | [], _ => none
  | (a', o) :: rest, a => if a' = a then some o else hLookup rest a

/-- A heap: an association of addresses to objects plus the allocation
counter. -/
structure Heap where
  objs : List (ℕ × HObj)
  next : ℕ
deriving DecidableEq

/-- Every allocated address is below the counter. -/
def Heap.wf (σ : Heap) : Prop := ∀ p ∈ σ.objs, p.1 < σ.next

instance (σ : Heap) : Decidable (Heap.wf σ) :=
  inferInstanceAs (Decidable (∀ p ∈ σ.objs, p.1 < σ.next))

/-- State-and-exception monad: exceptions propagate, heap effects persist. -/
def HM (α : Type) : Type := Heap → Except PyErr α × Heap

def hmPure {α : Type} (a : α) : HM α := fun σ => (.ok a, σ)

def hmBind {α β : Type} (x : HM α) (f : α → HM β) : HM β := fun σ =>
  match x σ with
  | (.ok a, σ') => f a σ'
  | (.error e, σ') => (.error e, σ')

instance : Monad HM where
  pure := hmPure
  bind := hmBind

def throwH {α : Type} (e : PyErr) : HM α := fun σ => (.error e, σ)

def readObj (a : ℕ) : HM HObj := fun σ =>
  (match hLookup σ.objs a with
   | some o => .ok o
   | none => .error .keyError, σ)

def alloc (o : HObj) : HM ℕ := fun σ => (.ok σ.next, ⟨(σ.next, o) :: σ.objs, σ.next + 1⟩)

/-- Replace the object at an existing address; no-op when the address is
absent. -/
def updateAt : List (ℕ × HObj) → ℕ → HObj → List (ℕ × HObj)
  | [], _, _ => []
  | (a', o') :: rest, a, o => if a' = a then (a, o) :: rest else (a', o') :: updateAt rest a o

def writeObj (a : ℕ) (o : HObj) : HM Unit := fun σ => (.ok (), ⟨updateAt σ.objs a o, σ.next⟩)

/-- Dict field lookup. -/
def dLookup : List (String × HVal) → String → Option HVal
  | [], _ => none
  | (k', v) :: rest, k => if k' = k then some v else dLookup rest k

/-- Remove a dict field. -/
def dRemove : List (String × HVal) → String → List (String × HVal)
  | [], _ => []
  | (k', v) :: rest, k => if k' = k then rest else (k', v) :: dRemove rest k

/-- `d.copy()`: allocate a fresh dict sharing the entry values. -/
def dictCopy (a : ℕ) : HM ℕ := do
  let o ← readObj a
  match o with
  | .dict f => alloc (.dict f)
  | .list _ => throwH .attributeError

/-- `d.pop(key)`: remove and return; `KeyError` when absent. -/
def dictPop (a : ℕ) (k : String) : HM HVal := do
  let o ← readObj a
  match o with
  | .dict f =>
    match dLookup f k with
    | some v => do
      writeObj a (.dict (dRemove f k))
      pure v
    | none => throwH .keyError
  | .list _ => throwH .typeError

/-- `d.pop(key, default)`: as `pop` but no mutation and no error when the
key is absent. -/
def dictPopD (a : ℕ) (k : String) (dflt : HVal) : HM HVal := do
  let o ← readObj a
  match o with
  | .dict f =>
    match dLookup f k with
    | some v => do
      writeObj a (.dict (dRemove f k))
      pure v
    | none => pure dflt
  | .list _ => throwH .typeError

/-- Python iteration in the heap model: lists yield elements, dicts yield
keys, strings yield characters; no mutation. -/
def hIter (v : HVal) : HM (List HVal) :=
  match v with
  | .ref a => do
    let o ← readObj a
    match o with
    | .list items => pure items
    | .dict f => pure (f.map (fun kv => HVal.str kv.1))
  | .str s => pure (s.data.map (fun c => HVal.str (String.mk [c])))
  | _ => throwH .typeError

/-- Run an effectful action on each element in order. -/
def forEachH {α : Type} (f : α → HM Unit) : List α → HM Unit
  | [] => pure ()
  | x :: xs => do
    f x
    forEachH f xs

/-- `Cls(**p)` for the leaf dataclasses (`ParameterValue`, `Link`): reads
the mapping's entries, raising on non-mappings, and never mutates. -/
def hKwargsRead (v : HVal) : HM Unit := do
  match v with
  | .ref a => do
    let o ← readObj a
    match o with
    | .dict _ => pure ()
    | .list _ => throwH .typeError
  | _ => throwH .typeError

/-- Heap traffic of `SearchResult.from_json`: copy, pop `parameters`,
iterate building each `ParameterValue`. -/
def hSearchResultFromJson (v : HVal) : HM Unit := do
  match v with
  | .ref a => do
    let s ← dictCopy a
    let params ← dictPop s "parameters"
    let items ← hIter params
    forEachH hKwargsRead items
  | _ => throwH .attributeError

/-- Heap traffic of `ParameterSet.from_json`: copy, pop `parameters`,
iterate it, pop `links` with a freshly allocated `[]` default, iterate
it. -/
def hParameterSetFromJson (v : HVal) : HM Unit := do
  match v with
  | .ref a => do
    let s ← dictCopy a
    let params ← dictPop s "parameters"
    let pitems ← hIter params
    forEachH hKwargsRead pitems
    let dfltA ← alloc (.list [])
    let links ← dictPopD s "links" (.ref dfltA)
    let litems ← hIter links
    forEachH hKwargsRead litems
  | _ => throwH .attributeError

/-- Heap traffic of `Event.from_json`: copy, pop `search`, pop `pe_sets`
with a fresh `[]` default, then run the two comprehensions. -/
def hEventFromJson (v : HVal) : HM Unit := do
  match v with
  | .ref a => do
    let e ← dictCopy a
    let searches ← dictPop e "search"
    let dfltA ← alloc (.list [])
    let peSets ← dictPopD e "pe_sets" (.ref dfltA)
    let sitems ← hIter searches
    forEachH hSearchResultFromJson sitems
    let pitems ← hIter peSets
    forEachH hParameterSetFromJson pitems
  | _ => throwH .attributeError

/-- Heap traffic of `Catalog.from_json`: copy, pop `events`, iterate the
events. -/
def hCatalogFromJson (v : HVal) : HM Unit := do
  match v with
  | .ref a => do
    let c ← dictCopy a
    let events ← dictPop c "events"
    let items ← hIter events
    forEachH hEventFromJson items
  | _ => throwH .attributeError

/-- Heap traffic of `validate_schema`. -/
def hValidateSchema (v : HVal) : HM Bool := do
  hCatalogFromJson v
  pure true

/-- Hoare-style specification: running `m` from any well-formed heap whose
counter is at least `n` keeps the heap well-formed, never lowers the
counter, leaves every address below `n` untouched, and every successful
result satisfies `P`. -/
def MSpec {α : Type} (n : ℕ) (m : HM α) (P : α → Prop) : Prop :=
  ∀ σ : Heap, Heap.wf σ → n ≤ σ.next →
    Heap.wf (m σ).2 ∧ σ.next ≤ (m σ).2.next ∧
    (∀ a, a < n → hLookup (m σ).2.objs a = hLookup σ.objs a) ∧
    (∀ x, (m σ).1 = Except.ok x → P x)

/-- A three-object heap: a catalog dict pointing to an events list holding
one event dict. -/
def heapFixture : Heap :=
  ⟨[(0, .dict [("events", .ref 1)]),
    (1, .list [.ref 2]),
    (2, .dict [("event_name", .str "GW241230_010000"), ("gps", .num 1),
               ("search", .ref 3)]),
    (3, .list [])], 4⟩

theorem natLogAux_spec : ∀ fuel n : ℕ, 1 ≤ n → n ≤ fuel →
    10 ^ natLogAux fuel n ≤ n ∧ n < 10 ^ (natLogAux fuel n + 1) := by
  intro fuel
  induction fuel with
  | zero => intro n h1 h2; omega
  | succ fuel ih =>
    intro n h1 h2
    by_cases h10 : n < 10
    · simp only [natLogAux, if_pos h10, pow_zero, pow_one]
      omega
    · simp only [natLogAux, if_neg h10]
      have hm1 : 1 ≤ n / 10 := by omega
      have hmf : n / 10 ≤ fuel := by omega
      obtain ⟨hlo, hhi⟩ := ih (n / 10) hm1 hmf
      constructor
      · calc 10 ^ (natLogAux fuel (n / 10) + 1)
            = 10 ^ natLogAux fuel (n / 10) * 10 := by ring
          _ ≤ n / 10 * 10 := Nat.mul_le_mul_right 10 hlo
          _ ≤ n := Nat.div_mul_le_self n 10
      · calc n < (n / 10 + 1) * 10 := by omega
          _ ≤ 10 ^ (natLogAux fuel (n / 10) + 1) * 10 := Nat.mul_le_mul_right 10 (by omega)
          _ = 10 ^ (natLogAux fuel (n / 10) + 1 + 1) := by ring

theorem natLog10_spec (n : ℕ) (h : 1 ≤ n) :
    10 ^ natLog10 n ≤ n ∧ n < 10 ^ (natLog10 n + 1) :=
  natLogAux_spec n n h le_rfl

theorem decExp_spec {x : ℚ} (hx : 0 < x) :
    (10 : ℚ) ^ decExp x ≤ x ∧ x < (10 : ℚ) ^ (decExp x + 1) := by
  have hten : (10 : ℚ) ≠ 0 := by norm_num
  have hnum : 0 < x.num := Rat.num_pos.mpr hx
  have hN1 : 1 ≤ x.num.natAbs := Int.natAbs_pos.mpr hnum.ne'
  have hD1 : 1 ≤ x.den := x.den_pos
  obtain ⟨hNlo, hNhi⟩ := natLog10_spec _ hN1
  obtain ⟨hDlo, hDhi⟩ := natLog10_spec _ hD1
  set A : ℤ := (natLog10 x.num.natAbs : ℤ) with hA
  set B : ℤ := (natLog10 x.den : ℤ) with hB
  have hxeq : x = (x.num.natAbs : ℚ) / (x.den : ℚ) := by
    have hcast : (x.num.natAbs : ℚ) = (x.num : ℚ) := by
      rw [Int.cast_natAbs]
      exact_mod_cast abs_of_nonneg hnum.le
    rw [hcast, Rat.num_div_den]
  have hDpos : (0 : ℚ) < (x.den : ℚ) := by exact_mod_cast x.den_pos
  have qNlo : (10 : ℚ) ^ A ≤ (x.num.natAbs : ℚ) := by
    rw [hA, zpow_natCast]
    exact_mod_cast hNlo
  have qNhi : (x.num.natAbs : ℚ) < (10 : ℚ) ^ (A + 1) := by
    rw [hA, show ((natLog10 x.num.natAbs : ℤ) + 1) = ((natLog10 x.num.natAbs + 1 : ℕ) : ℤ) by
      push_cast; ring, zpow_natCast]
    exact_mod_cast hNhi
  have qDlo : (10 : ℚ) ^ B ≤ (x.den : ℚ) := by
    rw [hB, zpow_natCast]
    exact_mod_cast hDlo
  have qDhi : (x.den : ℚ) < (10 : ℚ) ^ (B + 1) := by
    rw [hB, show ((natLog10 x.den : ℤ) + 1) = ((natLog10 x.den + 1 : ℕ) : ℤ) by
      push_cast; ring, zpow_natCast]
    exact_mod_cast hDhi
  by_cases h : (10 : ℚ) ^ (A - B) ≤ x
  · have hd : decExp x = A - B := by
      rw [decExp, if_neg (not_le.mpr hx), if_pos h]
    rw [hd]
    refine ⟨h, ?_⟩
    rw [hxeq, div_lt_iff₀ hDpos]
    calc (x.num.natAbs : ℚ) < 10 ^ (A + 1) := qNhi
      _ = 10 ^ (A - B + 1) * 10 ^ B := by
          rw [← zpow_add₀ hten]; congr 1; ring
      _ ≤ 10 ^ (A - B + 1) * (x.den : ℚ) :=
          mul_le_mul_of_nonneg_left qDlo (by positivity)
  · have hd : decExp x = A - B - 1 := by
      rw [decExp, if_neg (not_le.mpr hx), if_neg h]
    rw [hd]
    constructor
    · rw [hxeq, le_div_iff₀ hDpos]
      calc (10 : ℚ) ^ (A - B - 1) * (x.den : ℚ)
          ≤ 10 ^ (A - B - 1) * 10 ^ (B + 1) :=
            mul_le_mul_of_nonneg_left qDhi.le (by positivity)
        _ = 10 ^ A := by rw [← zpow_add₀ hten]; congr 1; ring
        _ ≤ (x.num.natAbs : ℚ) := qNlo
    · rw [show A - B - 1 + 1 = A - B by ring]
      exact not_le.mp h

theorem decExp_unique {x : ℚ} {e : ℤ} (hx : 0 < x)
    (h1 : (10 : ℚ) ^ e ≤ x) (h2 : x < (10 : ℚ) ^ (e + 1)) : decExp x = e := by
  obtain ⟨hlo, hhi⟩ := decExp_spec hx
  by_contra hne
  rcases lt_or_gt_of_ne hne with hlt | hgt
  · have hle : (10 : ℚ) ^ (decExp x + 1) ≤ 10 ^ e :=
      zpow_le_zpow_right₀ (by norm_num) (by omega)
    exact absurd (hhi.trans_le (hle.trans h1)) (lt_irrefl x)
  · have hle : (10 : ℚ) ^ (e + 1) ≤ 10 ^ decExp x :=
      zpow_le_zpow_right₀ (by norm_num) (by omega)
    exact absurd (h2.trans_le (hle.trans hlo)) (lt_irrefl x)

theorem decExp_eq_intLog {x : ℚ} (hx : 0 < x) : decExp x = Int.log 10 x := by
  obtain ⟨hlo, hhi⟩ := decExp_spec hx
  have h1 : decExp x ≤ Int.log 10 x := by
    rw [← Int.zpow_le_iff_le_log (by norm_num) hx]
    exact_mod_cast hlo
  have h2 : Int.log 10 x < decExp x + 1 := by
    rw [← Int.lt_zpow_iff_log_lt (by norm_num) hx]
    exact_mod_cast hhi
  omega

theorem intLog_ratCast_real {q : ℚ} (hq : 0 < q) :
    Int.log 10 ((q : ℝ)) = Int.log 10 q := by
  have hq' : (0 : ℝ) < (q : ℝ) := by exact_mod_cast hq
  have hlo := Int.zpow_log_le_self (b := 10) (R := ℚ) (by norm_num) hq
  have hhi := Int.lt_zpow_succ_log_self (b := 10) (R := ℚ) (by norm_num) q
  have hlo' : ((10 : ℕ) : ℝ) ^ Int.log 10 q ≤ (q : ℝ) := by
    rw [show ((10 : ℕ) : ℝ) = ((((10 : ℕ) : ℚ)) : ℝ) by norm_num, ← Rat.cast_zpow]
    exact_mod_cast hlo
  have hhi' : (q : ℝ) < ((10 : ℕ) : ℝ) ^ (Int.log 10 q + 1) := by
    rw [show ((10 : ℕ) : ℝ) = ((((10 : ℕ) : ℚ)) : ℝ) by norm_num, ← Rat.cast_zpow]
    exact_mod_cast hhi
  have h1 : Int.log 10 q ≤ Int.log 10 (q : ℝ) :=
    (Int.zpow_le_iff_le_log (by norm_num) hq').mp hlo'
  have h2 : Int.log 10 (q : ℝ) < Int.log 10 q + 1 :=
    (Int.lt_zpow_iff_log_lt (by norm_num) hq').mp hhi'
  omega

/-- Bridge between the executable `firstDecimalPlace` and the specification's
formula `ceil(-log10(|x|))`. -/
theorem firstDecimalPlace_eq_ceil {x : ℚ} (hx : x ≠ 0) :
    firstDecimalPlace x = ⌈-Real.logb 10 |(x : ℝ)|⌉ := by
  have habs : (0 : ℚ) < |x| := abs_pos.mpr hx
  have hcast : |(x : ℝ)| = ((|x| : ℚ) : ℝ) := by push_cast; ring
  rw [Int.ceil_neg, firstDecimalPlace, decExp_eq_intLog habs]
  congr 1
  rw [hcast, show (10 : ℝ) = ((10 : ℕ) : ℝ) by norm_num,
    Real.floor_logb_natCast (by positivity), intLog_ratCast_real habs]

theorem rhe_intCast (k : ℤ) : rhe (k : ℚ) = k := by
  simp [rhe]

theorem rhe_lower (x : ℚ) : ⌊x⌋ ≤ rhe x := by
  simp only [rhe]
  split_ifs <;> omega

theorem rhe_upper (x : ℚ) : rhe x ≤ ⌊x⌋ + 1 := by
  simp only [rhe]
  split_ifs <;> omega

theorem roundTo_eq_self {dp : ℤ} {x : ℚ} (k : ℤ) (h : x * 10 ^ dp = (k : ℚ)) :
    roundTo dp x = x := by
  have hp : ((10 : ℚ) ^ dp) ≠ 0 := zpow_ne_zero _ (by norm_num)
  rw [roundTo, h, rhe_intCast, div_eq_iff hp]
  exact h.symm

theorem roundTo_mul_self (dp : ℤ) (x : ℚ) :
    roundTo dp x * 10 ^ dp = (rhe (x * 10 ^ dp) : ℚ) := by
  rw [roundTo, div_mul_cancel₀]
  exact zpow_ne_zero _ (by norm_num)

theorem roundTo_one_mem {m : ℚ} (h1 : 1 ≤ m) (h2 : m < 10) :
    1 ≤ roundTo 1 m ∧ roundTo 1 m ≤ 10 := by
  have hz : ((10 : ℚ) ^ (1 : ℤ)) = 10 := zpow_one 10
  have hfl : (10 : ℤ) ≤ ⌊m * 10⌋ := Int.le_floor.mpr (by push_cast; nlinarith)
  have hfu : ⌊m * 10⌋ < 100 := Int.floor_lt.mpr (by push_cast; nlinarith)
  have h3 := rhe_lower (m * 10)
  have h4 := rhe_upper (m * 10)
  constructor
  · rw [roundTo, hz, le_div_iff₀ (by norm_num : (0 : ℚ) < 10)]
    have h5 : (10 : ℤ) ≤ rhe (m * 10) := hfl.trans h3
    have h6 : (10 : ℚ) ≤ (rhe (m * 10) : ℚ) := by exact_mod_cast h5
    linarith
  · rw [roundTo, hz, div_le_iff₀ (by norm_num : (0 : ℚ) < 10)]
    have h5 : rhe (m * 10) ≤ 100 := h4.trans (by omega)
    have h6 : ((rhe (m * 10) : ℚ)) ≤ 100 := by exact_mod_cast h5
    linarith

theorem mantissa_mem {v : ℚ} (hv : 0 < v) :
    1 ≤ v / 10 ^ decExp v ∧ v / 10 ^ decExp v < 10 := by
  obtain ⟨h1, h2⟩ := decExp_spec hv
  have hp : (0 : ℚ) < 10 ^ decExp v := by positivity
  constructor
  · rw [le_div_iff₀ hp]
    linarith
  · rw [div_lt_iff₀ hp]
    calc v < 10 ^ (decExp v + 1) := h2
      _ = 10 * 10 ^ decExp v := by
        rw [zpow_add₀ (by norm_num : (10 : ℚ) ≠ 0), zpow_one]
        ring

theorem sigRound_pos_eq {v : ℚ} (hv : 0 < v) :
    sigRound 2 v = roundTo 1 (v / 10 ^ decExp v) * 10 ^ decExp v := by
  rw [sigRound, if_neg hv.ne', abs_of_pos hv, if_neg (not_lt.mpr hv.le)]
  norm_num

theorem sigRound_neg (sig : ℕ) (v : ℚ) : sigRound sig (-v) = -sigRound sig v := by
  rcases lt_trichotomy v 0 with h | h | h
  · rw [sigRound, sigRound, if_neg (neg_ne_zero.mpr h.ne), if_neg h.ne, abs_neg,
      if_neg (not_lt.mpr (neg_nonneg.mpr h.le)), if_pos h]
    ring
  · subst h
    simp [sigRound]
  · rw [sigRound, sigRound, if_neg (neg_ne_zero.mpr h.ne'), if_neg h.ne', abs_neg,
      if_pos (neg_lt_zero.mpr h), if_neg (not_lt.mpr h.le)]
    ring

theorem sigRound2_pos {v : ℚ} (hv : 0 < v) : 0 < sigRound 2 v := by
  rw [sigRound_pos_eq hv]
  obtain ⟨h1, h2⟩ := mantissa_mem hv
  obtain ⟨hr1, _⟩ := roundTo_one_mem h1 h2
  have hp : (0 : ℚ) < 10 ^ decExp v := by positivity
  nlinarith

theorem decExp_zpow (e : ℤ) : decExp ((10 : ℚ) ^ e) = e :=
  decExp_unique (by positivity) le_rfl
    (zpow_lt_zpow_right₀ (by norm_num) (by omega))

theorem sigRound2_idem_pos {v : ℚ} (hv : 0 < v) :
    sigRound 2 (sigRound 2 v) = sigRound 2 v := by
  obtain ⟨hm1, hm2⟩ := mantissa_mem hv
  obtain ⟨hr1, hr10⟩ := roundTo_one_mem hm1 hm2
  have heq : sigRound 2 v = roundTo 1 (v / 10 ^ decExp v) * 10 ^ decExp v :=
    sigRound_pos_eq hv
  have hten : (10 : ℚ) ≠ 0 := by norm_num
  have hrint : roundTo 1 (v / 10 ^ decExp v) * 10 =
      (rhe (v / 10 ^ decExp v * 10) : ℚ) := by
    have h := roundTo_mul_self 1 (v / 10 ^ decExp v)
    rwa [zpow_one] at h
  rcases eq_or_lt_of_le hr10 with h10 | hlt
  · rw [heq, h10]
    have hpow : (10 : ℚ) * 10 ^ decExp v = 10 ^ (decExp v + 1) := by
      rw [zpow_add₀ hten, zpow_one]
      ring
    rw [hpow]
    have hp : (0 : ℚ) < 10 ^ (decExp v + 1) := by positivity
    rw [sigRound_pos_eq hp, decExp_zpow, div_self hp.ne']
    rw [roundTo_eq_self 10 (by rw [zpow_one, one_mul]; norm_num)]
    ring
  · have hrpos : (0 : ℚ) < roundTo 1 (v / 10 ^ decExp v) := by linarith
    have hp : (0 : ℚ) < 10 ^ decExp v := by positivity
    have hprod : (0 : ℚ) < roundTo 1 (v / 10 ^ decExp v) * 10 ^ decExp v := by positivity
    rw [heq]
    have hde : decExp (roundTo 1 (v / 10 ^ decExp v) * 10 ^ decExp v) = decExp v := by
      apply decExp_unique hprod
      · nlinarith
      · rw [zpow_add₀ hten, zpow_one]
        nlinarith
    rw [sigRound_pos_eq hprod, hde, mul_div_cancel_right₀ _ hp.ne']
    rw [roundTo_eq_self (rhe (v / 10 ^ decExp v * 10)) (by rw [zpow_one]; exact hrint)]

theorem sigRound2_idem (v : ℚ) : sigRound 2 (sigRound 2 v) = sigRound 2 v := by
  rcases lt_trichotomy v 0 with hneg | hz | hpos
  · have h := sigRound2_idem_pos (neg_pos.mpr hneg)
    have e1 : sigRound 2 v = -sigRound 2 (-v) := by
      rw [← sigRound_neg, neg_neg]
    rw [e1, sigRound_neg, h]
  · subst hz
    simp [sigRound]
  · exact sigRound2_idem_pos hpos

theorem sigRound2_ne_zero {v : ℚ} (hv : v ≠ 0) : sigRound 2 v ≠ 0 := by
  rcases lt_trichotomy v 0 with hneg | hz | hpos
  · have h := sigRound2_pos (neg_pos.mpr hneg)
    have e1 : sigRound 2 v = -sigRound 2 (-v) := by
      rw [← sigRound_neg, neg_neg]
    rw [e1]
    exact neg_ne_zero.mpr h.ne'
  · exact absurd hz hv
  · exact (sigRound2_pos hpos).ne'

theorem condTruncate_eq_specRoundCast (dp : ℤ) (v : ℚ) :
    condTruncate dp v = specRoundCast dp v := by
  rw [condTruncate, specRoundCast]
  rcases lt_or_le 0 dp with h | h
  · rw [if_pos h, if_neg (not_le.mpr h)]
  · rw [if_neg (not_lt.mpr h), if_pos h]

/-- Reduction of `_condition_value_and_error` in the general branch. -/
theorem cond_general (value e0 e1 : ℚ) (h : min |e0| |e1| ≠ 0) :
    conditionValueAndError value (e0, e1) =
      some
        { best := some (condTruncate
            (firstDecimalPlace (min |e0| |e1|) +
              (if eFmtLeadingOne (min |e0| |e1|) then 1 else 0)) value)
          median := none
          lower_error := condTruncate
            (firstDecimalPlace (min |e0| |e1|) +
              (if eFmtLeadingOne (min |e0| |e1|) then 1 else 0))
            (value - |e0| - condTruncate
              (firstDecimalPlace (min |e0| |e1|) +
                (if eFmtLeadingOne (min |e0| |e1|) then 1 else 0)) value)
          upper_error := condTruncate
            (firstDecimalPlace (min |e0| |e1|) +
              (if eFmtLeadingOne (min |e0| |e1|) then 1 else 0))
            (value + |e1| - condTruncate
              (firstDecimalPlace (min |e0| |e1|) +
                (if eFmtLeadingOne (min |e0| |e1|) then 1 else 0)) value)
          decimal_places := max 0
            (firstDecimalPlace (min |e0| |e1|) +
              (if eFmtLeadingOne (min |e0| |e1|) then 1 else 0)) } := by
  simp only [conditionValueAndError, if_neg h]

/-- Reduction of `_condition_value_and_error` in the degenerate branch for a
nonzero central value. -/
theorem cond_degenerate (value e0 e1 : ℚ) (h : min |e0| |e1| = 0) (hv : value ≠ 0) :
    conditionValueAndError value (e0, e1) =
      some
        { best := none
          median := some (sigRound 2 value)
          lower_error := sigRound 2 (-|e0|)
          upper_error := sigRound 2 |e1|
          decimal_places := max 0 (firstDecimalPlace value + 1) } := by
  simp only [conditionValueAndError, if_pos h, if_neg hv]

/-- In the degenerate branch with a zero central value the code raises
`OverflowError` while converting `np.ceil(inf)` to `int`. -/
theorem cond_degenerate_zero (e0 e1 : ℚ) (h : min |e0| |e1| = 0) :
    conditionValueAndError 0 (e0, e1) = none := by
  simp [conditionValueAndError, h]

/-- C1. Evaluation of the formatter at `value = 1`, `error = (0, 0.5)`, a
degenerate input with `min_error = 0`: the numeric contents agree with the
claim (central value, both error fields 2-sig-fig rounded, and
`decimal_places = max 0 (firstDecimalPlace 1 + 1) = 1`), but the central
value is stored under the dict key `median` while the `best` key — which the
claim, the general branch, and the `ParameterValue(**kwargs)` call in
`from_series` all require — is absent. -/
theorem c1_degenerate_median_key :
    conditionValueAndError 1 (0, 1/2) =
      some { best := none, median := some 1, lower_error := 0, upper_error := 1/2,
             decimal_places := 1 } := by
  have h0 : |(0 : ℚ)| = 0 := abs_zero
  have hhalf : |(1/2 : ℚ)| = 1/2 := abs_of_pos (by norm_num)
  have hmin : min |(0 : ℚ)| |(1/2 : ℚ)| = 0 := by
    rw [h0, hhalf]
    norm_num [min_def]
  rw [cond_degenerate 1 0 (1/2) hmin (by norm_num)]
  have hde1 : decExp (1 : ℚ) = 0 := decExp_unique (by norm_num) (by norm_num) (by norm_num)
  have hdeh : decExp (1/2 : ℚ) = -1 := decExp_unique (by norm_num) (by norm_num) (by norm_num)
  have hs1 : sigRound 2 (1 : ℚ) = 1 := by
    rw [sigRound, if_neg (by norm_num), abs_one, hde1]
    norm_num [roundTo, rhe, Int.fract]
  have hs2 : sigRound 2 ((1 : ℚ)/2) = 1/2 := by
    rw [sigRound, if_neg (by norm_num), hhalf, hdeh]
    norm_num [roundTo, rhe, Int.fract]
  have hs0 : sigRound 2 (-|(0 : ℚ)|) = 0 := by
    rw [h0, neg_zero]
    simp [sigRound]
  have hfdp1 : firstDecimalPlace (1 : ℚ) = 0 := by
    rw [firstDecimalPlace, abs_one, hde1]
    ring
  rw [hs1, hs0, hhalf, hs2, hfdp1]
  norm_num

/-- C2 counterexample. At `value = 1`, `error = (200, 300)` (so
`min_error = 200`) the formatter returns `decimal_places = 0`, while the
claim's formula `ceil(-log10(min_error))` plus the leading-digit-one
increment evaluates to `-2`: the claim omits the `max(0, ·)` floor that the
code applies to the returned field. -/
theorem c2_decimal_places_counterexample :
    (conditionValueAndError 1 (200, 300)).map CondResult.decimal_places = some 0 ∧
    ⌈-Real.logb 10 (200 : ℝ)⌉ + (if eFmtLeadingOne 200 then 1 else 0) = -2 ∧
    (0 : ℤ) ≠ -2 := by
  have habs2 : |(200 : ℚ)| = 200 := abs_of_pos (by norm_num)
  have habs3 : |(300 : ℚ)| = 300 := abs_of_pos (by norm_num)
  have hmin : min |(200 : ℚ)| |(300 : ℚ)| = 200 := by
    rw [habs2, habs3]
    norm_num [min_def]
  have hde : decExp (200 : ℚ) = 2 := decExp_unique (by norm_num) (by norm_num) (by norm_num)
  have hfdp : firstDecimalPlace (200 : ℚ) = -2 := by
    rw [firstDecimalPlace, habs2, hde]
  have hefmt : eFmtLeadingOne (200 : ℚ) = false := by
    rw [eFmtLeadingOne, habs2, hde]
    norm_num [roundTo, rhe, Int.fract]
  refine ⟨?_, ?_, by norm_num⟩
  · rw [cond_general 1 200 300 (by rw [hmin]; norm_num), hmin, hfdp, hefmt]
    norm_num
  · rw [hefmt]
    have hcast : (200 : ℝ) = |((200 : ℚ) : ℝ)| := by norm_num
    rw [hcast, ← firstDecimalPlace_eq_ceil (by norm_num : (200 : ℚ) ≠ 0), hfdp]
    norm_num

/-- C2 amended. In the general branch (`min_error > 0`) the returned
`decimal_places` equals `max 0 (ceil(-log10 min_error) + inc)`, where `inc`
is `1` exactly when the `%e`-formatted mantissa of `min_error` (rounded to
six decimal places) begins with the digit `1`; and whenever the formatter
returns a result at all, its `decimal_places` is nonnegative. -/
theorem c2_amended_decimal_places :
    (∀ value e0 e1 : ℚ, 0 < min |e0| |e1| →
      (conditionValueAndError value (e0, e1)).map CondResult.decimal_places =
        some (max 0 (⌈-Real.logb 10 (((min |e0| |e1| : ℚ) : ℝ))⌉ +
          (if eFmtLeadingOne (min |e0| |e1|) then 1 else 0)))) ∧
    (∀ (value e0 e1 : ℚ) (r : CondResult),
      conditionValueAndError value (e0, e1) = some r → 0 ≤ r.decimal_places) := by
  constructor
  · intro v e0 e1 h
    rw [cond_general v e0 e1 h.ne']
    have hpos : (0 : ℝ) < ((min |e0| |e1| : ℚ) : ℝ) := by exact_mod_cast h
    rw [firstDecimalPlace_eq_ceil h.ne', abs_of_pos hpos]
    rfl
  · intro v e0 e1 r hr
    by_cases hmin : min |e0| |e1| = 0
    · by_cases hv : v = 0
      · subst hv
        rw [cond_degenerate_zero e0 e1 hmin] at hr
        exact absurd hr (by simp)
      · rw [cond_degenerate v e0 e1 hmin hv] at hr
        injection hr with h
        rw [← h]
        exact le_max_left _ _
    · rw [cond_general v e0 e1 hmin] at hr
      injection hr with h
      rw [← h]
      exact le_max_left _ _

/-- C2 amended witness at `value = 1`, `error = (200, 300)`. -/
theorem c2_amended_decimal_places_witness :
    (conditionValueAndError 1 (200, 300)).map CondResult.decimal_places =
      some (max 0 (⌈-Real.logb 10 (((min |(200 : ℚ)| |(300 : ℚ)| : ℚ) : ℝ))⌉ +
        (if eFmtLeadingOne (min |(200 : ℚ)| |(300 : ℚ)|) then 1 else 0))) :=
  c2_amended_decimal_places.1 1 200 300 (by
    rw [abs_of_pos (by norm_num : (0 : ℚ) < 200), abs_of_pos (by norm_num : (0 : ℚ) < 300)]
    norm_num [min_def])

/-- C3. In the general branch the central value is rounded to the computed
`decimal_places` and cast to an integer when `decimal_places <= 0`
(`specRoundCast`, transcribed from the spec's wording), and each error field
is obtained by rounding `value ± error_component - truncated_value` —
i.e. re-derived relative to the already-rounded central value — with the
same rounding-and-cast rule, rather than being rounded independently. -/
theorem c3_general_branch_rounding :
    ∀ value e0 e1 : ℚ, 0 < min |e0| |e1| →
      conditionValueAndError value (e0, e1) =
        some
          { best := some (specRoundCast
              (firstDecimalPlace (min |e0| |e1|) +
                (if eFmtLeadingOne (min |e0| |e1|) then 1 else 0)) value)
            median := none
            lower_error := specRoundCast
              (firstDecimalPlace (min |e0| |e1|) +
                (if eFmtLeadingOne (min |e0| |e1|) then 1 else 0))
              (value - |e0| - specRoundCast
                (firstDecimalPlace (min |e0| |e1|) +
                  (if eFmtLeadingOne (min |e0| |e1|) then 1 else 0)) value)
            upper_error := specRoundCast
              (firstDecimalPlace (min |e0| |e1|) +
                (if eFmtLeadingOne (min |e0| |e1|) then 1 else 0))
              (value + |e1| - specRoundCast
                (firstDecimalPlace (min |e0| |e1|) +
                  (if eFmtLeadingOne (min |e0| |e1|) then 1 else 0)) value)
            decimal_places := max 0
              (firstDecimalPlace (min |e0| |e1|) +
                (if eFmtLeadingOne (min |e0| |e1|) then 1 else 0)) } := by
  intro value e0 e1 h
  rw [cond_general value e0 e1 h.ne']
  simp only [condTruncate_eq_specRoundCast]

/-- C3 witness: the spec's worked example `format(3.34, (0.012, 0.009))`
gives `decimal_places = 3`, `best = 3.34` and errors re-derived relative to
the rounded central value. -/
theorem c3_general_branch_rounding_witness :
    conditionValueAndError (334/100) (12/1000, 9/1000) =
      some { best := some (334/100), median := none, lower_error := -(12/1000),
             upper_error := 9/1000, decimal_places := 3 } := by
  have habs0 : |(12/1000 : ℚ)| = 12/1000 := abs_of_pos (by norm_num)
  have habs1 : |(9/1000 : ℚ)| = 9/1000 := abs_of_pos (by norm_num)
  have hmin : min |(12/1000 : ℚ)| |(9/1000 : ℚ)| = 9/1000 := by
    rw [habs0, habs1]
    norm_num [min_def]
  have hde : decExp (9/1000 : ℚ) = -3 :=
    decExp_unique (by norm_num) (by norm_num) (by norm_num)
  have hfdp : firstDecimalPlace (9/1000 : ℚ) = 3 := by
    rw [firstDecimalPlace, habs1, hde]
    norm_num
  have hefmt : eFmtLeadingOne (9/1000 : ℚ) = false := by
    rw [eFmtLeadingOne, habs1, hde]
    norm_num [roundTo, rhe, Int.fract]
  rw [c3_general_branch_rounding (334/100) (12/1000) (9/1000) (by rw [hmin]; norm_num)]
  rw [hmin, hfdp, hefmt]
  norm_num [specRoundCast, roundTo, rhe, pyTrunc, Int.fract, abs_of_nonneg, abs_of_nonpos]

/-- C4 counterexample. The formatter is not total on finite non-NaN inputs:
at `value = 0` with `error = (0, 0)` the degenerate branch computes
`int(np.ceil(-np.log10(0.0))) = int(inf)` and raises `OverflowError`
(modelled as `none`). -/
theorem c4_zero_zero_overflow : conditionValueAndError 0 (0, 0) = none :=
  cond_degenerate_zero 0 0 (by norm_num)

/-- C4 amended. The formatter returns a result for every input except the
single point where the central value is zero and the smaller absolute error
is zero; in particular the `min_error == 0` case is an ordinary branch, and
the embedding is a pure function. -/
theorem c4_amended_totality :
    ∀ value e0 e1 : ℚ, (value ≠ 0 ∨ min |e0| |e1| ≠ 0) →
      (conditionValueAndError value (e0, e1)).isSome = true := by
  intro v e0 e1 h
  by_cases hmin : min |e0| |e1| = 0
  · have hv : v ≠ 0 := h.resolve_right (fun hc => hc hmin)
    rw [cond_degenerate v e0 e1 hmin hv]
    rfl
  · rw [cond_general v e0 e1 hmin]
    rfl

/-- C4 amended witness at `value = 1`, `error = (0, 0)`. -/
theorem c4_amended_totality_witness :
    (conditionValueAndError 1 (0, 0)).isSome = true :=
  c4_amended_totality 1 0 0 (Or.inl (by norm_num))

/-- C9 counterexample. `format(123.456, (0.2, 0.3))` yields `best = 123.5`;
re-formatting `123.5` with zero residual error takes the degenerate branch,
which rounds to two significant figures and returns `120` under the `median`
key (with `best` absent) — the already-formatted best value is not preserved. -/
theorem c9_reformat_counterexample :
    (conditionValueAndError (123456/1000) (2/10, 3/10)).bind CondResult.best =
      some (247/2) ∧
    (conditionValueAndError (247/2) (0, 0)).bind CondResult.best = none ∧
    (conditionValueAndError (247/2) (0, 0)).bind CondResult.median = some 120 ∧
    (120 : ℚ) ≠ 247/2 := by
  have habs0 : |(2/10 : ℚ)| = 2/10 := abs_of_pos (by norm_num)
  have habs1 : |(3/10 : ℚ)| = 3/10 := abs_of_pos (by norm_num)
  have hmin : min |(2/10 : ℚ)| |(3/10 : ℚ)| = 2/10 := by
    rw [habs0, habs1]
    norm_num [min_def]
  have hde : decExp (2/10 : ℚ) = -1 :=
    decExp_unique (by norm_num) (by norm_num) (by norm_num)
  have hfdp : firstDecimalPlace (2/10 : ℚ) = 1 := by
    rw [firstDecimalPlace, habs0, hde]
    norm_num
  have hefmt : eFmtLeadingOne (2/10 : ℚ) = false := by
    rw [eFmtLeadingOne, habs0, hde]
    norm_num [roundTo, rhe, Int.fract]
  have hmin0 : min |(0 : ℚ)| |(0 : ℚ)| = 0 := by norm_num
  have hde2 : decExp (247/2 : ℚ) = 2 :=
    decExp_unique (by norm_num) (by norm_num) (by norm_num)
  have hs : sigRound 2 (247/2 : ℚ) = 120 := by
    rw [sigRound, if_neg (by norm_num), show |(247/2 : ℚ)| = 247/2 from abs_of_pos (by norm_num),
      hde2]
    norm_num [roundTo, rhe, Int.fract]
  refine ⟨?_, ?_, ?_, by norm_num⟩
  · rw [cond_general (123456/1000) (2/10) (3/10) (by rw [hmin]; norm_num), hmin, hfdp, hefmt]
    simp only [Option.some_bind]
    norm_num [condTruncate, roundTo, rhe, Int.fract]
  · rw [cond_degenerate (247/2) 0 0 hmin0 (by norm_num)]
    rfl
  · rw [cond_degenerate (247/2) 0 0 hmin0 (by norm_num)]
    show some (sigRound 2 (247/2)) = some 120
    rw [hs]

/-- C9 amended. The degenerate zero-error path is idempotent on its own
central value: if formatting `v` with error `(0, 0)` reports the central
value `m` (under the `median` key), then formatting `m` with error `(0, 0)`
reports `m` unchanged, because rounding to two significant figures is
idempotent. -/
theorem c9_amended_degenerate_idempotent :
    ∀ v m : ℚ, v ≠ 0 →
      (conditionValueAndError v (0, 0)).bind CondResult.median = some m →
      (conditionValueAndError m (0, 0)).bind CondResult.median = some m := by
  intro v m hv hm
  have hmin0 : min |(0 : ℚ)| |(0 : ℚ)| = 0 := by norm_num
  rw [cond_degenerate v 0 0 hmin0 hv] at hm
  have hm' : some (sigRound 2 v) = some m := hm
  have hmeq : sigRound 2 v = m := Option.some.inj hm'
  have hm0 : m ≠ 0 := hmeq ▸ sigRound2_ne_zero hv
  rw [cond_degenerate m 0 0 hmin0 hm0]
  show some (sigRound 2 m) = some m
  rw [← hmeq, sigRound2_idem]

theorem forEachE_ok {f : JValue → Except PyErr Unit} {l : List JValue}
    (h : ∀ x ∈ l, f x = .ok ()) : forEachE f l = .ok () := by
  induction l with
  | nil => rfl
  | cons x xs ih =>
    rw [forEachE, h x (List.mem_cons_self x xs)]
    exact ih fun y hy => h y (List.mem_cons_of_mem x hy)

theorem checkPe_ok {j : JValue} (h : wsPe j = true) : checkPe j = .ok () := by
  cases j <;> first | rfl | exact absurd h (by simp [wsPe])

theorem checkPeset_ok {j : JValue} (h : wsPeset j = true) : checkPeset j = .ok () := by
  cases j with
  | obj pf =>
    have h' : (match jLookup pf "parameters" with
      | none => true
      | some (JValue.arr xs) => xs.all wsPe
      | some _ => false) = true := h
    rw [checkPeset]
    cases hp : jLookup pf "parameters" with
    | none => rfl
    | some v =>
      rw [hp] at h'
      cases v with
      | arr xs =>
        cases xs with
        | nil => rfl
        | cons y ys =>
          have hall : ∀ x ∈ y :: ys, checkPe x = .ok () := by
            intro x hx
            refine checkPe_ok ?_
            simp only [List.all_eq_true] at h'
            exact h' x hx
          simp [pyLen, pyIter, Bind.bind, Except.bind, Pure.pure, Except.pure, forEachE_ok hall]
      | null => exact absurd h' (by simp)
      | bool b => exact absurd h' (by simp)
      | num q => exact absurd h' (by simp)
      | str s2 => exact absurd h' (by simp)
      | obj o => exact absurd h' (by simp)
  | null => exact absurd h (by simp [wsPeset])
  | bool b => exact absurd h (by simp [wsPeset])
  | num q => exact absurd h (by simp [wsPeset])
  | str s => exact absurd h (by simp [wsPeset])
  | arr xs => exact absurd h (by simp [wsPeset])

theorem checkEvent_peSetsWalk {ef : List (String × JValue)}
    (hpe : (match jLookup ef "pe_sets" with
      | none => true
      | some (JValue.arr xs) => xs.all wsPeset
      | some _ => false) = true) :
    (match jLookup ef "pe_sets" with
      | none => Except.ok ()
      | some ps => do
        let n ← pyLen ps
        if n = 0 then Except.ok ()
        else do
          let items ← pyIter ps
          forEachE checkPeset items) = Except.ok () := by
  cases hp : jLookup ef "pe_sets" with
  | none => rfl
  | some v =>
    rw [hp] at hpe
    cases v with
    | arr xs =>
      cases xs with
      | nil => rfl
      | cons y ys =>
        have hall : ∀ x ∈ y :: ys, checkPeset x = .ok () := by
          intro x hx
          refine checkPeset_ok ?_
          simp only [List.all_eq_true] at hpe
          exact hpe x hx
        simp [pyLen, pyIter, Bind.bind, Except.bind, Pure.pure, Except.pure, forEachE_ok hall]
    | null => exact absurd hpe (by simp)
    | bool b => exact absurd hpe (by simp)
    | num q => exact absurd hpe (by simp)
    | str s2 => exact absurd hpe (by simp)
    | obj o => exact absurd hpe (by simp)

theorem checkEvent_ok {j : JValue} (h : wsEvent j = true) : checkEvent j = .ok () := by
  cases j with
  | obj ef =>
    have h' : ((match jLookup ef "name" with
        | none => true
        | some (JValue.str s) => true
        | some _ => false) &&
      (match jLookup ef "detectors" with
        | none => true
        | some (JValue.arr xs) => true
        | some _ => false) &&
      (match jLookup ef "pe_sets" with
        | none => true
        | some (JValue.arr xs) => xs.all wsPeset
        | some _ => false)) = true := h
    simp only [Bool.and_eq_true] at h'
    obtain ⟨⟨hname, hdet⟩, hpe⟩ := h'
    rw [checkEvent]
    have hwalk := checkEvent_peSetsWalk hpe
    cases hn : jLookup ef "name" with
    | none =>
      cases hd : jLookup ef "detectors" with
      | none => exact hwalk
      | some dv =>
        rw [hd] at hdet
        cases dv with
        | arr ds => simpa [pyLen, pyIter, Bind.bind, Except.bind] using hwalk
        | null => exact absurd hdet (by simp)
        | bool b => exact absurd hdet (by simp)
        | num q => exact absurd hdet (by simp)
        | str s2 => exact absurd hdet (by simp)
        | obj o => exact absurd hdet (by simp)
    | some nv =>
      rw [hn] at hname
      cases nv with
      | str s =>
        cases hd : jLookup ef "detectors" with
        | none => exact hwalk
        | some dv =>
          rw [hd] at hdet
          cases dv with
          | arr ds => simpa [pyLen, pyIter, Bind.bind, Except.bind] using hwalk
          | null => exact absurd hdet (by simp)
          | bool b => exact absurd hdet (by simp)
          | num q => exact absurd hdet (by simp)
          | str s2 => exact absurd hdet (by simp)
          | obj o => exact absurd hdet (by simp)
      | null => exact absurd hname (by simp)
      | bool b => exact absurd hname (by simp)
      | num q => exact absurd hname (by simp)
      | arr a => exact absurd hname (by simp)
      | obj o => exact absurd hname (by simp)
  | null => exact absurd h (by simp [wsEvent])
  | bool b => exact absurd h (by simp [wsEvent])
  | num q => exact absurd h (by simp [wsEvent])
  | str s => exact absurd h (by simp [wsEvent])
  | arr xs => exact absurd h (by simp [wsEvent])

/-- C5 counterexample. `GW150914` matches the spec's pattern
`GW\d{6}(_\d{6})?` but strict-mode construction rejects it: the code's
pattern `^GW\d{6}_\d{6}$` makes the underscore suffix mandatory. -/
theorem c5_short_name_counterexample :
    matchesGWSpec "GW150914" = true ∧
    eventPostInit evShortName = .error PyErr.valueError := by
  constructor
  · decide
  · decide

/-- C5 amended. Strict-mode construction accepts `event_name` exactly when
it matches `^GW\d{6}_\d{6}$` (suffix mandatory), for any event that passes
the other checks; every name the code accepts also matches the spec's
optional-suffix pattern, but not conversely. -/
theorem c5_amended_suffix_mandatory :
    (∀ (name : String) (g : ℚ) (sr : SearchResult) (gid desc : Option String),
      eventPostInit ⟨name, g, [sr], gid, none, none, desc⟩ = .ok () ↔
        matchesGWFull name = true) ∧
    (∀ s : String, matchesGWFull s = true → matchesGWSpec s = true) := by
  constructor
  · intro name g sr gid desc
    by_cases h : matchesGWFull name
    · simp [eventPostInit, h, detectorsOk]
    · simp [eventPostInit, h]
  · intro s h
    rw [matchesGWFull] at h
    rw [matchesGWSpec]
    rcases hd : s.data with _ | ⟨c1, _ | ⟨c2, rest⟩⟩ <;> rw [hd] at h
    · simp at h
    · simp at h
    · simp only [Bool.and_eq_true, Bool.or_eq_true] at h ⊢
      tauto

/-- C5 amended witness: a full-form name passes strict construction and also
matches the spec's pattern. -/
theorem c5_amended_suffix_mandatory_witness :
    eventPostInit ⟨"GW123456_123456", 0, [srFixture], none, none, none, none⟩ = .ok () ∧
    matchesGWSpec "GW123456_123456" = true :=
  ⟨(c5_amended_suffix_mandatory.1 "GW123456_123456" 0 srFixture none none).mpr (by decide),
   c5_amended_suffix_mandatory.2 "GW123456_123456" (by decide)⟩

/-- C6. For an otherwise-valid event carrying a non-empty `pe_sets` list,
strict-mode construction succeeds exactly when exactly one element has
`is_preferred = true`; with `pe_sets` absent (`None`) or empty the check is
skipped and construction succeeds. -/
theorem c6_exactly_one_preferred :
    ∀ (name : String) (g : ℚ) (sr : SearchResult) (gid desc : Option String)
      (ps : List ParameterSet),
      matchesGWFull name = true →
      ((ps ≠ [] →
        (eventPostInit ⟨name, g, [sr], gid, some ps, none, desc⟩ = .ok () ↔
          (ps.filter (fun p => p.is_preferred)).length = 1)) ∧
       eventPostInit ⟨name, g, [sr], gid, none, none, desc⟩ = .ok () ∧
       eventPostInit ⟨name, g, [sr], gid, some [], none, desc⟩ = .ok ()) := by
  intro name g sr gid desc ps h
  refine ⟨fun hne => ?_, ?_, ?_⟩
  · have hlen : ps.length ≠ 0 := fun hl => hne (List.length_eq_zero.mp hl)
    by_cases hcount : (ps.filter (fun p => p.is_preferred)).length = 1
    · simp [eventPostInit, h, detectorsOk, hlen, hcount]
    · simp [eventPostInit, h, detectorsOk, hlen, hcount]
  · simp [eventPostInit, h, detectorsOk]
  · simp [eventPostInit, h, detectorsOk]

/-- C6 witness: one preferred set among two passes strict construction. -/
theorem c6_exactly_one_preferred_witness :
    eventPostInit ⟨"GW241231_010000", 0, [srFixture], none, some [psPreferred, psOther],
      none, none⟩ = .ok () :=
  ((c6_exactly_one_preferred "GW241231_010000" 0 srFixture none none
    [psPreferred, psOther] (by decide)).1 (by simp)).mpr (by decide)

/-- C7 counterexample. The lenient walker is not exception-free: on the JSON
document `{"events": [42]}` it reaches `event.keys()` on the integer `42`
and raises `AttributeError` instead of returning a boolean. -/
theorem c7_lenient_raises_counterexample :
    verifyUploadSchema (JValue.obj [("events", JValue.arr [JValue.num 42])]) =
      .error PyErr.attributeError := by
  decide

/-- C7 amended. A catalog with an empty events list fails both modes: strict
construction raises `ValueError`, and the lenient walker returns `False`.
On well-shaped documents (dict nodes where the walker calls `.keys()`, a
string `name`, list-shaped `detectors`, `pe_sets` and `parameters`) the
walker completes without raising and returns `False` exactly when the
`events` key is absent or maps to an empty list; on ill-shaped documents it
can raise. -/
theorem c7_empty_events_both_modes :
    (∀ c : Catalog, c.events = [] → catalogPostInit c = .error PyErr.valueError) ∧
    (∀ fields : List (String × JValue), wsDoc fields = true →
      ∃ b : Bool, verifyUploadSchema (JValue.obj fields) = .ok b ∧
        (b = false ↔ (jLookup fields "events" = none ∨
          jLookup fields "events" = some (JValue.arr [])))) := by
  constructor
  · intro c hc
    simp [catalogPostInit, hc]
  · intro fields hws
    rw [verifyUploadSchema]
    rw [wsDoc] at hws
    cases hev : jLookup fields "events" with
    | none => exact ⟨false, rfl, by simp [hev]⟩
    | some v =>
      rw [hev] at hws
      cases v with
      | null => exact absurd hws (by simp [wsDoc, hev])
      | bool b => exact absurd hws (by simp [wsDoc, hev])
      | num q => exact absurd hws (by simp [wsDoc, hev])
      | str s2 => exact absurd hws (by simp [wsDoc, hev])
      | obj o => exact absurd hws (by simp [wsDoc, hev])
      | arr xs =>
        cases xs with
        | nil =>
          refine ⟨false, by simp [pyLen, Bind.bind, Except.bind], by simp [hev]⟩
        | cons e es =>
          have hall : ∀ x ∈ e :: es, checkEvent x = .ok () := by
            intro x hx
            exact checkEvent_ok (by
              simp only [List.all_eq_true] at hws
              exact hws x hx)
          refine ⟨true, ?_, by simp [hev]⟩
          simp [pyLen, pyIter, Bind.bind, Except.bind, Pure.pure, Except.pure, forEachE_ok hall]

/-- C7 amended witness: the empty-events catalog fails strictly, and the
lenient walker returns `False` on `{"events": []}`. -/
theorem c7_empty_events_both_modes_witness :
    catalogPostInit catEmptyEvents = .error PyErr.valueError ∧
    ∃ b : Bool, verifyUploadSchema (JValue.obj [("events", JValue.arr [])]) = .ok b ∧
      (b = false ↔ (jLookup [("events", JValue.arr [])] "events" = none ∨
        jLookup [("events", JValue.arr [])] "events" = some (JValue.arr []))) :=
  ⟨c7_empty_events_both_modes.1 catEmptyEvents rfl,
   c7_empty_events_both_modes.2 [("events", JValue.arr [])] (by decide)⟩

/-- C9 amended witness: `1.23` formats to `1.2`, and `1.2` re-formats to
itself. -/
theorem c9_amended_degenerate_idempotent_witness :
    (conditionValueAndError (6/5 : ℚ) (0, 0)).bind CondResult.median = some (6/5) := by
  refine c9_amended_degenerate_idempotent (123/100) (6/5) (by norm_num) ?_
  have hmin0 : min |(0 : ℚ)| |(0 : ℚ)| = 0 := by norm_num
  rw [cond_degenerate (123/100) 0 0 hmin0 (by norm_num)]
  show some (sigRound 2 (123/100)) = some (6/5)
  have hde : decExp (123/100 : ℚ) = 0 :=
    decExp_unique (by norm_num) (by norm_num) (by norm_num)
  rw [sigRound, if_neg (by norm_num),
    show |(123/100 : ℚ)| = 123/100 from abs_of_pos (by norm_num), hde]
  norm_num [roundTo, rhe, Int.fract]

theorem mapExcept_ok {α β : Type} (f : α → Except PyErr β) (g : β → α) (l : List β)
    (h : ∀ x ∈ l, f (g x) = .ok x) : mapExcept f (l.map g) = .ok l := by
  induction l with
  | nil => rfl
  | cons x xs ih =>
    rw [List.map_cons, mapExcept, h x (List.mem_cons_self x xs),
      ih fun y hy => h y (List.mem_cons_of_mem x hy)]
    rfl

theorem pv_roundtrip (p : ParameterValue) (h : parameterValuePostInit p = .ok ()) :
    ParameterValue.fromJson (ParameterValue.toJson p) = .ok p := by
  obtain ⟨pn, dp, bst, ue, le', ub, lb, un⟩ := p
  rcases ue with _ | ueq <;> rcases le' with _ | leq <;> rcases un with _ | uns <;>
    simp_all [ParameterValue.toJson, ParameterValue.fromJson, keysSubset, jLookup,
      getStr, getNum, getOptNum, getOptStr, getBoolD, optNumJ, optStrJ,
      Bind.bind, Except.bind, Pure.pure, Except.pure]

theorem link_roundtrip (l : Link) : Link.fromJson (Link.toJson l) = .ok l := by
  obtain ⟨u, c, d⟩ := l
  simp [Link.toJson, Link.fromJson, keysSubset, jLookup, getStr,
    Bind.bind, Except.bind, Pure.pure, Except.pure]

theorem sr_roundtrip (s : SearchResult)
    (h : ∀ p ∈ s.parameters, parameterValuePostInit p = .ok ()) :
    SearchResult.fromJson (SearchResult.toJson s) = .ok s := by
  obtain ⟨pn, params⟩ := s
  have hm : mapExcept ParameterValue.fromJson (params.map ParameterValue.toJson) =
      .ok params :=
    mapExcept_ok _ _ _ (fun p hp => pv_roundtrip p (h p hp))
  simp [SearchResult.toJson, SearchResult.fromJson, jLookup, keysSubset, getStr, hm,
    Bind.bind, Except.bind, Pure.pure, Except.pure]

theorem ps_roundtrip (ps : ParameterSet) (hlinks : ∃ ls, ps.links = some ls)
    (hp : ∀ p ∈ ps.parameters, parameterValuePostInit p = .ok ()) :
    ParameterSet.fromJson (ParameterSet.toJson ps) = .ok ps := by
  obtain ⟨nm, wf, params, du, ipref, links⟩ := ps
  obtain ⟨ls, hls⟩ := hlinks
  simp only at hls
  subst hls
  have hm : mapExcept ParameterValue.fromJson (params.map ParameterValue.toJson) =
      .ok params :=
    mapExcept_ok _ _ _ (fun p hpp => pv_roundtrip p (hp p hpp))
  have hl : mapExcept Link.fromJson (ls.map Link.toJson) = .ok ls :=
    mapExcept_ok _ _ _ (fun l _ => link_roundtrip l)
  rcases du with _ | dus <;>
    simp [ParameterSet.toJson, ParameterSet.fromJson, jLookup, keysSubset, getStr,
      getOptStr, getBoolD, optStrJ, hm, hl,
      Bind.bind, Except.bind, Pure.pure, Except.pure]

theorem event_roundtrip (ev : Event) (hpost : eventPostInit ev = .ok ())
    (hsr : ∀ sr ∈ ev.search, ∀ p ∈ sr.parameters, parameterValuePostInit p = .ok ())
    (hpe : ∃ l, ev.pe_sets = some l ∧ l ≠ [] ∧
      ∀ ps ∈ l, (∃ ls, ps.links = some ls) ∧
        ∀ p ∈ ps.parameters, parameterValuePostInit p = .ok ()) :
    Event.fromJson (Event.toJson ev) = .ok ev := by
  obtain ⟨nm, gps, search, gid, pe, det, desc⟩ := ev
  obtain ⟨l, hl, hlne, hlps⟩ := hpe
  simp only at hl hsr hpost
  subst hl
  have hmsr : mapExcept SearchResult.fromJson (search.map SearchResult.toJson) =
      .ok search :=
    mapExcept_ok _ _ _ (fun sr hs => sr_roundtrip sr (hsr sr hs))
  have hmpe : mapExcept ParameterSet.fromJson (l.map ParameterSet.toJson) = .ok l :=
    mapExcept_ok _ _ _ (fun ps hps => ps_roundtrip ps (hlps ps hps).1 (hlps ps hps).2)
  have hempty : l.isEmpty = false := by
    cases l with
    | nil => exact absurd rfl hlne
    | cons a as => rfl
  have hmdet : ∀ ds : List String,
      mapExcept (fun x => match x with
        | JValue.str s => Except.ok s
        | _ => Except.error PyErr.typeError) (ds.map JValue.str) = .ok ds :=
    fun ds => mapExcept_ok _ _ _ (fun s _ => rfl)
  rcases gid with _ | gids <;> rcases det with _ | ds <;> rcases desc with _ | descs <;>
    simp_all [Event.toJson, Event.fromJson, jLookup, keysSubset, getStr, getNum,
      getOptStr, optStrJ, hmsr, hmpe, hempty, hmdet,
      Bind.bind, Except.bind, Pure.pure, Except.pure]

/-- C8 counterexample. `catNoPeSets` is a validated catalog whose single
event has `pe_sets = None`; `to_json` serialises the field as `null`, and
the strict re-parse raises `TypeError` while iterating it — the round trip
does not return an equal record, it raises. -/
theorem c8_roundtrip_counterexample :
    catalogPostInit catNoPeSets = .ok () ∧
    eventPostInit evNoPeSets = .ok () ∧
    Catalog.fromJson (Catalog.toJson catNoPeSets) = .error PyErr.typeError := by
  refine ⟨by decide, by decide, by decide⟩

/-- C8 amended. For every validated catalog in which each event carries a
non-empty `pe_sets` list and every parameter set carries a (possibly empty)
`links` list, serialising with `to_json` and strictly re-parsing yields a
field-for-field equal record.  Events with `pe_sets` equal to `None` or `[]`
and parameter sets with `links = None` are excluded: `null` round-trips to a
`TypeError` and `[]` re-parses to `None`. -/
theorem c8_amended_roundtrip :
    ∀ c : Catalog, catalogPostInit c = .ok () →
      (∀ ev ∈ c.events, eventPostInit ev = .ok ()) →
      (∀ ev ∈ c.events, ∀ sr ∈ ev.search, ∀ p ∈ sr.parameters,
        parameterValuePostInit p = .ok ()) →
      (∀ ev ∈ c.events, ∃ l, ev.pe_sets = some l ∧ l ≠ [] ∧
        ∀ ps ∈ l, (∃ ls, ps.links = some ls) ∧
          ∀ p ∈ ps.parameters, parameterValuePostInit p = .ok ()) →
      Catalog.fromJson (Catalog.toJson c) = .ok c := by
  intro c hcat hev hsr hpe
  obtain ⟨cn, rd, cd, doi, events, sv⟩ := c
  simp only at hcat hev hsr hpe
  have hm : mapExcept Event.fromJson (events.map Event.toJson) = .ok events :=
    mapExcept_ok _ _ _ (fun ev hm' => event_roundtrip ev (hev ev hm') (hsr ev hm') (hpe ev hm'))
  simp [Catalog.toJson, Catalog.fromJson, jLookup, keysSubset, getStr, hm, hcat,
    Bind.bind, Except.bind, Pure.pure, Except.pure]

theorem mspec_bind {α β : Type} {n : ℕ} {x : HM α} {f : α → HM β} {P : α → Prop}
    {Q : β → Prop} (hx : MSpec n x P) (hf : ∀ a, P a → MSpec n (f a) Q) :
    MSpec n (x >>= f) Q := by
  intro σ hwf hn
  obtain ⟨hwf1, hmono1, hpres1, hpost1⟩ := hx σ hwf hn
  rcases hres : x σ with ⟨r, σ1⟩
  rw [hres] at hwf1 hmono1 hpres1 hpost1
  cases r with
  | error e =>
    have heq : (x >>= f) σ = (.error e, σ1) := by
      show (match x σ with
        | (.ok a, σ') => f a σ'
        | (.error e', σ') => (.error e', σ')) = (.error e, σ1)
      rw [hres]
    rw [heq]
    exact ⟨hwf1, hmono1, hpres1, fun y hy => by simp at hy⟩
  | ok a =>
    have hP : P a := hpost1 a rfl
    have heq : (x >>= f) σ = f a σ1 := by
      show (match x σ with
        | (.ok a', σ') => f a' σ'
        | (.error e', σ') => (.error e', σ')) = f a σ1
      rw [hres]
    obtain ⟨hwf2, hmono2, hpres2, hpost2⟩ := hf a hP σ1 hwf1 (hn.trans hmono1)
    rw [heq]
    exact ⟨hwf2, hmono1.trans hmono2,
      fun a' ha' => (hpres2 a' ha').trans (hpres1 a' ha'), hpost2⟩

theorem mspec_pure {α : Type} (n : ℕ) (x : α) {P : α → Prop} (hP : P x) :
    MSpec n (pure x) P := by
  intro σ hwf hn
  refine ⟨hwf, le_rfl, fun a ha => rfl, fun y hy => ?_⟩
  have hxy : x = y := Except.ok.inj hy
  exact hxy ▸ hP

theorem mspec_pure_true {α : Type} (n : ℕ) (x : α) : MSpec n (pure x) (fun _ => True) :=
  mspec_pure n x trivial

theorem mspec_throw {α : Type} (n : ℕ) (e : PyErr) (P : α → Prop) :
    MSpec n (throwH e) P := by
  intro σ hwf hn
  refine ⟨hwf, le_rfl, fun a ha => rfl, fun y hy => ?_⟩
  simp [throwH] at hy

theorem mspec_readObj (n a : ℕ) : MSpec n (readObj a) (fun _ => True) := by
  intro σ hwf hn
  exact ⟨hwf, le_rfl, fun a' ha' => rfl, fun _ _ => trivial⟩

theorem mspec_alloc (n : ℕ) (o : HObj) : MSpec n (alloc o) (fun r => n ≤ r) := by
  intro σ hwf hn
  refine ⟨?_, Nat.le_succ _, ?_, ?_⟩
  · intro p hp
    rcases List.mem_cons.mp hp with h | h
    · rw [h]
      exact Nat.lt_succ_self _
    · exact Nat.lt_succ_of_lt (hwf p h)
  · intro a' ha'
    show hLookup ((σ.next, o) :: σ.objs) a' = hLookup σ.objs a'
    rw [hLookup, if_neg (by omega)]
  · intro x hx
    have hxe : σ.next = x := Except.ok.inj hx
    omega

theorem updateAt_mem : ∀ (l : List (ℕ × HObj)) (a : ℕ) (o : HObj) (p : ℕ × HObj),
    p ∈ updateAt l a o → p ∈ l ∨ (p = (a, o) ∧ ∃ o', (a, o') ∈ l) := by
  intro l a o
  induction l with
  | nil =>
    intro p hp
    exact absurd hp (List.not_mem_nil p)
  | cons hd tl ih =>
    rcases hd with ⟨b, ob⟩
    intro p hp
    rw [updateAt] at hp
    by_cases hb : b = a
    · rw [if_pos hb] at hp
      rcases List.mem_cons.mp hp with h1 | h1
      · subst hb
        exact Or.inr ⟨h1, ob, List.mem_cons_self _ _⟩
      · exact Or.inl (List.mem_cons_of_mem _ h1)
    · rw [if_neg hb] at hp
      rcases List.mem_cons.mp hp with h1 | h1
      · rw [h1]
        exact Or.inl (List.mem_cons_self _ _)
      · rcases ih p h1 with h2 | ⟨h2, o'', h3⟩
        · exact Or.inl (List.mem_cons_of_mem _ h2)
        · exact Or.inr ⟨h2, o'', List.mem_cons_of_mem _ h3⟩

theorem hLookup_updateAt_ne : ∀ (l : List (ℕ × HObj)) (a : ℕ) (o : HObj) (a' : ℕ),
    a' ≠ a → hLookup (updateAt l a o) a' = hLookup l a' := by
  intro l a o
  induction l with
  | nil => intro a' h; rfl
  | cons hd tl ih =>
    rcases hd with ⟨b, ob⟩
    intro a' h
    rw [updateAt]
    by_cases hb : b = a
    · subst hb
      rw [if_pos rfl, hLookup, hLookup, if_neg (fun he => h he.symm),
        if_neg (fun he => h he.symm)]
    · rw [if_neg hb, hLookup, hLookup, ih a' h]

theorem mspec_writeObj (n a : ℕ) (o : HObj) (ha : n ≤ a) :
    MSpec n (writeObj a o) (fun _ => True) := by
  intro σ hwf hn
  refine ⟨?_, le_rfl, ?_, fun _ _ => trivial⟩
  · intro p hp
    rcases updateAt_mem σ.objs a o p hp with h | ⟨hpe, o', ho'⟩
    · exact hwf p h
    · rw [hpe]
      exact hwf (a, o') ho'
  · intro a' ha'
    exact hLookup_updateAt_ne σ.objs a o a' (by omega)

theorem mspec_dictCopy (n a : ℕ) : MSpec n (dictCopy a) (fun r => n ≤ r) := by
  refine mspec_bind (mspec_readObj n a) ?_
  intro o _
  cases o with
  | dict f => exact mspec_alloc n _
  | list items => exact mspec_throw n _ _

theorem mspec_dictPop (n a : ℕ) (k : String) (ha : n ≤ a) :
    MSpec n (dictPop a k) (fun _ => True) := by
  refine mspec_bind (mspec_readObj n a) ?_
  intro o _
  cases o with
  | dict f =>
    show MSpec n (match dLookup f k with
      | some v => do
        writeObj a (HObj.dict (dRemove f k))
        pure v
      | none => throwH PyErr.keyError) (fun _ => True)
    cases dLookup f k with
    | some v =>
      exact mspec_bind (mspec_writeObj n a _ ha) (fun _ _ => mspec_pure_true n v)
    | none => exact mspec_throw n _ _
  | list items => exact mspec_throw n _ _

theorem mspec_dictPopD (n a : ℕ) (k : String) (dflt : HVal) (ha : n ≤ a) :
    MSpec n (dictPopD a k dflt) (fun _ => True) := by
  refine mspec_bind (mspec_readObj n a) ?_
  intro o _
  cases o with
  | dict f =>
    show MSpec n (match dLookup f k with
      | some v => do
        writeObj a (HObj.dict (dRemove f k))
        pure v
      | none => pure dflt) (fun _ => True)
    cases dLookup f k with
    | some v =>
      exact mspec_bind (mspec_writeObj n a _ ha) (fun _ _ => mspec_pure_true n v)
    | none => exact mspec_pure_true n dflt
  | list items => exact mspec_throw n _ _

theorem mspec_hIter (n : ℕ) (v : HVal) : MSpec n (hIter v) (fun _ => True) := by
  cases v with
  | ref a =>
    refine mspec_bind (mspec_readObj n a) ?_
    intro o _
    cases o with
    | list items => exact mspec_pure_true n items
    | dict f => exact mspec_pure_true n _
  | str s => exact mspec_pure_true n _
  | null => exact mspec_throw n _ _
  | bool b => exact mspec_throw n _ _
  | num q => exact mspec_throw n _ _

theorem mspec_forEachH {f : HVal → HM Unit} (n : ℕ)
    (hf : ∀ x : HVal, MSpec n (f x) (fun _ => True)) :
    ∀ l : List HVal, MSpec n (forEachH f l) (fun _ => True) := by
  intro l
  induction l with
  | nil => exact mspec_pure_true n ()
  | cons x xs ih => exact mspec_bind (hf x) (fun _ _ => ih)

theorem mspec_hKwargsRead (n : ℕ) (v : HVal) : MSpec n (hKwargsRead v) (fun _ => True) := by
  cases v with
  | ref a =>
    refine mspec_bind (mspec_readObj n a) ?_
    intro o _
    cases o with
    | dict f => exact mspec_pure_true n ()
    | list items => exact mspec_throw n _ _
  | null => exact mspec_throw n _ _
  | bool b => exact mspec_throw n _ _
  | num q => exact mspec_throw n _ _
  | str s => exact mspec_throw n _ _

theorem mspec_hSearchResultFromJson (n : ℕ) (v : HVal) :
    MSpec n (hSearchResultFromJson v) (fun _ => True) := by
  cases v with
  | ref a =>
    refine mspec_bind (mspec_dictCopy n a) ?_
    intro s hs
    refine mspec_bind (mspec_dictPop n s _ hs) ?_
    intro params _
    refine mspec_bind (mspec_hIter n params) ?_
    intro items _
    exact mspec_forEachH n (fun x => mspec_hKwargsRead n x) items
  | null => exact mspec_throw n _ _
  | bool b => exact mspec_throw n _ _
  | num q => exact mspec_throw n _ _
  | str s => exact mspec_throw n _ _

theorem mspec_hParameterSetFromJson (n : ℕ) (v : HVal) :
    MSpec n (hParameterSetFromJson v) (fun _ => True) := by
  cases v with
  | ref a =>
    refine mspec_bind (mspec_dictCopy n a) ?_
    intro s hs
    refine mspec_bind (mspec_dictPop n s _ hs) ?_
    intro params _
    refine mspec_bind (mspec_hIter n params) ?_
    intro pitems _
    refine mspec_bind (mspec_forEachH n (fun x => mspec_hKwargsRead n x) pitems) ?_
    intro _ _
    refine mspec_bind (mspec_alloc n _) ?_
    intro dfltA _
    refine mspec_bind (mspec_dictPopD n s _ _ hs) ?_
    intro links _
    refine mspec_bind (mspec_hIter n links) ?_
    intro litems _
    exact mspec_forEachH n (fun x => mspec_hKwargsRead n x) litems
  | null => exact mspec_throw n _ _
  | bool b => exact mspec_throw n _ _
  | num q => exact mspec_throw n _ _
  | str s => exact mspec_throw n _ _

theorem mspec_hEventFromJson (n : ℕ) (v : HVal) :
    MSpec n (hEventFromJson v) (fun _ => True) := by
  cases v with
  | ref a =>
    refine mspec_bind (mspec_dictCopy n a) ?_
    intro e he
    refine mspec_bind (mspec_dictPop n e _ he) ?_
    intro searches _
    refine mspec_bind (mspec_alloc n _) ?_
    intro dfltA _
    refine mspec_bind (mspec_dictPopD n e _ _ he) ?_
    intro peSets _
    refine mspec_bind (mspec_hIter n searches) ?_
    intro sitems _
    refine mspec_bind (mspec_forEachH n (fun x => mspec_hSearchResultFromJson n x) sitems) ?_
    intro _ _
    refine mspec_bind (mspec_hIter n peSets) ?_
    intro pitems _
    exact mspec_forEachH n (fun x => mspec_hParameterSetFromJson n x) pitems
  | null => exact mspec_throw n _ _
  | bool b => exact mspec_throw n _ _
  | num q => exact mspec_throw n _ _
  | str s => exact mspec_throw n _ _

theorem mspec_hCatalogFromJson (n : ℕ) (v : HVal) :
    MSpec n (hCatalogFromJson v) (fun _ => True) := by
  cases v with
  | ref a =>
    refine mspec_bind (mspec_dictCopy n a) ?_
    intro c hc
    refine mspec_bind (mspec_dictPop n c _ hc) ?_
    intro events _
    refine mspec_bind (mspec_hIter n events) ?_
    intro items _
    exact mspec_forEachH n (fun x => mspec_hEventFromJson n x) items
  | null => exact mspec_throw n _ _
  | bool b => exact mspec_throw n _ _
  | num q => exact mspec_throw n _ _
  | str s => exact mspec_throw n _ _

theorem mspec_hValidateSchema (n : ℕ) (v : HVal) :
    MSpec n (hValidateSchema v) (fun _ => True) :=
  mspec_bind (mspec_hCatalogFromJson n v) (fun _ _ => mspec_pure_true n true)

/-- C10. Strict-mode validation never mutates its input: running the heap
model of `Catalog.from_json` (or `validate_schema`) from any well-formed
heap leaves every pre-existing object — the whole input document — exactly
as it was, whether the run succeeds or raises, because every `from_json`
copies its dict before popping keys and all writes hit freshly allocated
copies. -/
theorem c10_fromJson_never_mutates_input :
    ∀ (σ : Heap) (v : HVal) (a : ℕ), Heap.wf σ → a < σ.next →
      hLookup ((hCatalogFromJson v) σ).2.objs a = hLookup σ.objs a ∧
      hLookup ((hValidateSchema v) σ).2.objs a = hLookup σ.objs a := by
  intro σ v a hwf ha
  constructor
  · exact ((mspec_hCatalogFromJson σ.next v) σ hwf le_rfl).2.2.1 a ha
  · exact ((mspec_hValidateSchema σ.next v) σ hwf le_rfl).2.2.1 a ha

/-- C10 witness: the catalog dict at address `0` of the concrete fixture
heap is unchanged by a full validation run. -/
theorem c10_fromJson_never_mutates_input_witness :
    hLookup ((hCatalogFromJson (HVal.ref 0)) heapFixture).2.objs 0 =
      hLookup heapFixture.objs 0 ∧
    hLookup ((hValidateSchema (HVal.ref 0)) heapFixture).2.objs 0 =
      hLookup heapFixture.objs 0 :=
  c10_fromJson_never_mutates_input heapFixture (HVal.ref 0) 0 (by decide) (by decide)

/-- C8 amended witness: a concrete validated catalog round-trips to itself. -/
theorem c8_amended_roundtrip_witness :
    Catalog.fromJson (Catalog.toJson catGood) = .ok catGood := by
  refine c8_amended_roundtrip catGood (by decide) (by decide) (by decide) ?_
  intro ev hev
  simp only [catGood, List.mem_singleton] at hev
  subst hev
  exact ⟨[psPreferred], rfl, by simp, fun ps hps => by
    simp only [List.mem_singleton] at hps
    subst hps
    exact ⟨⟨[], rfl⟩, by simp [psPreferred]⟩⟩

end GwoscCatalog
